import Mathlib

/-!
Verification of the Monarch multi-CURIE query (MCQ) TRAPI knowledge provider.

This development shallowly embeds the core query-answering pipeline of the
repository: the attribute-constraint engine (`src/mmcq/services/util/constraints.py`),
the similarity client request construction and result parsing
(`src/mmcq/services/util/monarch_adapter.py`), the response assembler
(`src/mmcq/services/util/trapi.py`), and the sources tree and constraint
filtering (`src/mmcq/services/util/question.py`).

Python dictionaries are modelled as insertion-ordered association lists with
upsert-in-place semantics (`dictSet`), Python floats as rationals, fallible
dictionary/list accesses as `Except PyErr`, and JSON values occurring in
attributes as the inductive `Value` (strings, numbers, lists).
-/

/-- Python exception kinds that the embedded code can raise. -/
inductive PyErr where
  | runtimeError (msg : String)
  | keyError (msg : String)
  | indexError (msg : String)
  | typeError (msg : String)
deriving DecidableEq, Repr

/-- Lookup in a Python-style dict modelled as an association list
(first binding for the key; keys are unique when built via `dictSet`). -/
def dictGet {α β : Type} [DecidableEq α] : List (α × β) → α → Option β
  | [], _ => none
  | (k, v) :: rest, key => if k = key then some v else dictGet rest key

/-- Python dict assignment `d[k] = v`: replaces in place when the key exists
(keeping its position, as CPython dicts do), else appends. -/
def dictSet {α β : Type} [DecidableEq α] : List (α × β) → α → β → List (α × β)
  | [], k, v => [(k, v)]
  | (k', v') :: rest, k, v =>
    if k' = k then (k', v) :: rest else (k', v') :: dictSet rest k v

/-- Python `k in d`. -/
def containsKey {α β : Type} [DecidableEq α] (d : List (α × β)) (k : α) : Bool :=
  (dictGet d k).isSome

/-- Python `set.add` on a set modelled as a duplicate-free list. -/
def setAdd {α : Type} [DecidableEq α] (l : List α) (x : α) : List α :=
  if x ∈ l then l else l ++ [x]

/-! ## Attribute-constraint engine (`constraints.py`)

`Value` models the JSON values compared by the operators: strings, numbers
(Python ints and floats, both modelled as rationals) and lists. -/

inductive Value where
  | vstr : String → Value
  | vnum : Rat → Value
  | vlist : List Value → Value

/-- `Operator.is_number` (`isinstance(a, numbers.Number)`). -/
def is_number : Value → Bool
  | .vnum _ => true
  | _ => false

/-- `Operator.is_iterable`: iterable and not a string. -/
def is_iterable : Value → Bool
  | .vlist _ => true
  | _ => false

/-- `Operator.is_same_data_type`: same Python type, or both numbers,
or both (non-string) iterables. -/
def is_same_data_type (a b : Value) : Bool :=
  (match a, b with
   | .vstr _, .vstr _ => true
   | .vnum _, .vnum _ => true
   | .vlist _, .vlist _ => true
   | _, _ => false)
  || (is_number a && is_number b) || (is_iterable a && is_iterable b)

/-- Python `==` between JSON values (numbers compare numerically,
cross-type comparisons are unequal). -/
def valueEq : Value → Value → Bool
  | .vstr a, .vstr b => a == b
  | .vnum a, .vnum b => a == b
  | .vlist a, .vlist b => goEq a b
  | _, _ => false
where goEq : List Value → List Value → Bool
  | [], [] => true
  | x :: xs, y :: ys => valueEq x y && goEq xs ys
  | _, _ => false

/-- Python `x in l` for a list `l` (membership via `==`). -/
def pyIn (x : Value) (l : List Value) : Bool :=
  l.any (fun y => valueEq x y)

/-- Python `<` between values of the same shape: numeric on numbers,
lexicographic on strings and lists. -/
def valueLt : Value → Value → Bool
  | .vnum a, .vnum b => a < b
  | .vstr a, .vstr b => a < b
  | .vlist a, .vlist b => goLt a b
  | _, _ => false
where goLt : List Value → List Value → Bool
  | [], [] => false
  | [], _ :: _ => true
  | _ :: _, [] => false
  | x :: xs, y :: ys => valueLt x y || (valueEq x y && goLt xs ys)

/-- `EqualToOperator.__call__`: same-type guard, then any-element
membership of the DB value in the constraint value for iterables,
plain equality otherwise. -/
def equal_to_op (a b : Value) : Bool :=
  if !is_same_data_type a b then false
  else
    match a, b with
    | .vlist la, .vlist lb => lb.any (fun x => pyIn x la)
    | _, _ => valueEq a b

/-- `DeepEqualToOperator.__call__`: same-type guard then order-sensitive
structural equality. -/
def deep_equal_to_op (a b : Value) : Bool :=
  if !is_same_data_type a b then false else valueEq a b

/-- `GreaterThanOperator.__call__`. -/
def greater_than_op (a b : Value) : Bool :=
  if !is_same_data_type a b then false else valueLt b a

/-- `LessThanOperator.__call__`. -/
def less_than_op (a b : Value) : Bool :=
  if !is_same_data_type a b then false else valueLt a b

/-- `MatchesOperator.__call__`; the ambient regular-expression engine
(`re.compile(a).match(b)`) is passed in as the function `rm`. -/
def matches_op (rm : String → String → Bool) (a b : Value) : Bool :=
  if !is_same_data_type a b then false
  else
    match a, b with
    | .vstr sa, .vstr sb => rm sa sb
    | .vlist la, .vlist lb => lb.any (fun x => pyIn x la)
    | _, _ => valueEq a b

/-- The `Operator` enum of `reasoner_pydantic.qgraph`. -/
inductive COperator where
  | equal_to | deep_equal_to | greater_than | less_than | matches
deriving DecidableEq, Repr

/-- The `operator_map` dispatch of `constraints.py`. -/
def applyOperator (rm : String → String → Bool) :
    COperator → Value → Value → Bool
  | .equal_to => equal_to_op
  | .deep_equal_to => deep_equal_to_op
  | .greater_than => greater_than_op
  | .less_than => less_than_op
  | .matches => matches_op rm

/-- `reasoner_pydantic.qgraph.AttributeConstraint`. -/
structure AttributeConstraint where
  id : String
  operator : COperator
  value : Value
  negated : Bool

/-- A knowledge-graph attribute as consumed by the constraint engine
(`reasoner_pydantic.shared.Attribute`, restricted to the fields read). -/
structure DbAttribute where
  attribute_type_id : String
  value : Value

/-- `check_attribute_constraint`: apply the operator between the constraint
value and the DB value, then invert when negated. -/
def check_attribute_constraint (rm : String → String → Bool)
    (c : AttributeConstraint) (db_value : Value) : Bool :=
  let r := applyOperator rm c.operator c.value db_value
  if c.negated then !r else r

/-- The inner `for db_attribute in db_attributes` loop of `check_attributes`:
`none` models the early `return False` on a matching attribute that fails
the constraint; `some applied` reports whether any attribute matched. -/
def applyConstraintLoop (rm : String → String → Bool)
    (c : AttributeConstraint) : List DbAttribute → Option Bool
  | [] => some false
  | a :: rest =>
    if a.attribute_type_id = c.id then
      if check_attribute_constraint rm c a.value then
        (applyConstraintLoop rm c rest).map (fun _ => true)
      else none
    else applyConstraintLoop rm c rest

/-- `check_attributes`: every constraint must be applied to at least one
attribute (matched by `attribute_type_id`) and no matching attribute may
fail it; constraints are conjoined. -/
def check_attributes (rm : String → String → Bool) :
    List AttributeConstraint → List DbAttribute → Bool
  | [], _ => true
  | c :: rest, attrs =>
    match applyConstraintLoop rm c attrs with
    | none => false
    | some applied => if applied then check_attributes rm rest attrs else false

/-! ## Similarity client request (`monarch_adapter.py`, `semsim_search`) -/

/-- The outbound JSON body POSTed to the SemSimian search endpoint. -/
structure SemsimQuery where
  termset : List String
  group : String
  directionality : String
  limit : Int
deriving DecidableEq, Repr

/-- The request-construction part of `semsim_search`: coerce `result_limit`
into `[1, 50]` (any out-of-range value becomes 50) and build the body. -/
def semsim_search_request (query_terms : List String) (group : String)
    (result_limit : Int) : SemsimQuery :=
  let result_limit := if result_limit < 1 || result_limit > 50 then 50 else result_limit
  { termset := query_terms
    group := group
    directionality := "object_to_subject"
    limit := result_limit }

/-! ## Sources tree (`question.py`, `Question._construct_sources_tree`) -/

/-- A raw `resource_id` value: TRAPI sources normally carry a string, but the
code also accepts a list of strings and expands it. -/
inductive ResourceId where
  | rstr : String → ResourceId
  | rlist : List String → ResourceId
deriving DecidableEq, Repr

/-- Python truthiness of a `resource_id` value. -/
def ResourceId.truthy : ResourceId → Bool
  | .rstr s => s != ""
  | .rlist l => !l.isEmpty

/-- A raw edge `sources` entry as assembled by `trapi.py` (`none` models a
missing or `null` key). -/
structure RawSource where
  resource_id : Option ResourceId := none
  resource_role : Option String := none
  source_record_urls : Option (List String) := none
deriving DecidableEq, Repr

/-- Python `str.lstrip(chars)`: drop the longest prefix of characters drawn
from `chars` (a character set, not a literal prefix). -/
def pyLstrip (chars : List Char) (s : String) : String :=
  String.mk (s.data.dropWhile (fun c => chars.contains c))

/-- The character set of the Python literal `"biolink:"` used by
`resource_role.lstrip("biolink:")`. -/
def biolinkChars : List Char := "biolink:".data

/-- The two grouping dictionaries built by the first loop of
`_construct_sources_tree`: ids per (stripped) role, and recorded
`source_record_urls` per raw `resource_id` value. -/
structure SourcesAcc where
  roleIds : List (String × List String)
  urls : List (ResourceId × Option (List String))

/-- The validity test of one raw source stub, as in
`'resource_id' in source and source['resource_id'] and 'resource_role' in
source and source['resource_role']`: both keys present and truthy. -/
def stubData (s : RawSource) : Option (ResourceId × String) :=
  match s.resource_id, s.resource_role with
  | some rid, some role => if rid.truthy && role != "" then some (rid, role) else none
  | _, _ => none

/-- The string ids contributed by one `resource_id` value (a string
contributes itself, a list its elements). -/
def stubIds : ResourceId → List String
  | .rstr s => [s]
  | .rlist l => l

/-- The role-grouping update for one valid stub: `setdefault(role, set())`
followed by adding the string id (or each element of a list id). -/
def roleIdsAfter (roleIds : List (String × List String)) (rid : ResourceId)
    (role : String) : List (String × List String) :=
  let roleIds1 := if containsKey roleIds role then roleIds else roleIds ++ [(role, [])]
  let ids := (dictGet roleIds1 role).getD []
  let ids1 :=
    match rid with
    | .rstr s => setAdd ids s
    | .rlist l => l.foldl setAdd ids
  dictSet roleIds1 role ids1

/-- One iteration of the `for source in sources` loop of
`_construct_sources_tree`: skip invalid stubs, strip the role with
`lstrip("biolink:")`, register the role key, record the urls, and add the
resource id (or each element of a list id) to the role's id set. -/
def sourcesStep (acc : SourcesAcc) (src : RawSource) : SourcesAcc :=
  match stubData src with
  | none => acc
  | some (rid, role0) =>
    { roleIds := roleIdsAfter acc.roleIds rid (pyLstrip biolinkChars role0)
      urls := dictSet acc.urls rid src.source_record_urls }

/-- A fully formatted `sources` entry of the output tree. -/
structure FormattedSource where
  resource_id : String
  resource_role : String
  source_record_urls : Option (List String)
  upstream_resource_ids : Option (List String)
deriving DecidableEq, Repr

/-- `list(upstreams) if upstreams else None`: an absent or empty (falsy)
set becomes `None`. -/
def listIfTruthy : Option (List String) → Option (List String)
  | none => none
  | some l => if l.isEmpty then none else some l

/-- The `upstreams` selection inside the second loop: aggregator entries
point at the primary ids, primary entries at the supporting-data ids. -/
def upstreamsForRole (roleIds : List (String × List String)) (role : String) :
    Option (List String) :=
  if role = "aggregator_knowledge_source" then
    dictGet roleIds "primary_knowledge_source"
  else if role = "primary_knowledge_source" then
    dictGet roleIds "supporting_data_source"
  else none

/-- Option-valued traversal of a list (the effect of building a Python list
comprehension whose elements may raise). -/
def optionTraverse {α β : Type} (f : α → Option β) : List α → Option (List β)
  | [] => some []
  | a :: rest =>
    match f a, optionTraverse f rest with
    | some b, some bs => some (b :: bs)
    | _, _ => none

/-- The entries generated for one role of the grouping dict; the
`source_record_urls_to_resource_id[resource_id]` lookup is keyed by the raw
(string) id and raises `KeyError` (modelled as `none`) when the id only ever
appeared inside a list-valued `resource_id`. -/
def formatRoleEntries (urls : List (ResourceId × Option (List String)))
    (roleIds : List (String × List String)) (role : String) (ids : List String) :
    Option (List FormattedSource) :=
  optionTraverse (fun rid =>
    (dictGet urls (.rstr rid)).map (fun u =>
      { resource_id := rid
        resource_role := role
        source_record_urls := u
        upstream_resource_ids := listIfTruthy (upstreamsForRole roleIds role) }))
    ids

/-- Python `a or b` over optional id sets: a missing key or an empty
(falsy) set falls through to the next alternative. -/
def orTruthy (a b : Option (List String)) : Option (List String) :=
  match a with
  | none => b
  | some l => if l.isEmpty then b else some l

/-- The system ("Monarch TRAPI") aggregator entry appended at the end. -/
def topLevelEntry (provenance : String) (roleIds : List (String × List String)) :
    FormattedSource :=
  let upstreams :=
    orTruthy (dictGet roleIds "aggregator_knowledge_source")
      (orTruthy (dictGet roleIds "primary_knowledge_source")
        (dictGet roleIds "supporting_data_source"))
  { resource_id := provenance
    resource_role := "aggregator_knowledge_source"
    source_record_urls := none
    upstream_resource_ids := listIfTruthy upstreams }

/-- `Question._construct_sources_tree` (`question.py`): group valid stubs by
stripped role, fill in `upstream_resource_ids` per role, and append the
system aggregator entry; an empty input yields just the system entry. -/
def _construct_sources_tree (provenance : String) (sources : List RawSource) :
    Option (List FormattedSource) :=
  if sources.isEmpty then
    some [{ resource_id := provenance
            resource_role := "aggregator_knowledge_source"
            source_record_urls := none
            upstream_resource_ids := none }]
  else
    let acc := sources.foldl sourcesStep { roleIds := [], urls := [] }
    match optionTraverse (fun kv => formatRoleEntries acc.urls acc.roleIds kv.1 kv.2)
        acc.roleIds with
    | none => none
    | some groups => some (groups.flatten ++ [topLevelEntry provenance acc.roleIds])

/-- Membership in the union of resource ids grouped under (stripped) role
`role`, stated over the raw input list. -/
def memberRoleIds (sources : List RawSource) (role : String) (x : String) : Prop :=
  ∃ s ∈ sources, ∃ rid role0, stubData s = some (rid, role0) ∧
    pyLstrip biolinkChars role0 = role ∧ x ∈ stubIds rid

/-- The id set grouped under `role` in the accumulator. -/
def idsOf (acc : SourcesAcc) (role : String) : List String :=
  (dictGet acc.roleIds role).getD []

/-- The ids actually listed in an output entry's `upstream_resource_ids`
(`none` reads as the empty list). -/
def upstreamIds (e : FormattedSource) : List String :=
  e.upstream_resource_ids.getD []

/-! ## Edge-id allocator (`trapi.py`, `next_edge_id`)

`next_edge_id` formats the incremented counter as `f"e{edge_idx:0>4}"`:
the decimal digits of the counter, left-padded with zeros to width 4,
prefixed with `e`. -/

/-- The decimal digit character for `d < 10`. -/
def digitChar (d : Nat) : Char := Char.ofNat (48 + d)

/-- Decimal digits with structural fuel (any fuel at least the value
itself suffices). -/
def decDigitsAux : Nat → Nat → List Char
  | 0, n => [digitChar n]
  | fuel + 1, n =>
    if n < 10 then [digitChar n]
    else decDigitsAux fuel (n / 10) ++ [digitChar (n % 10)]

/-- Decimal digits of a natural number, most significant first. -/
def decDigits (n : Nat) : List Char := decDigitsAux n n

/-- `f"{s:0>4}"`: left-pad with `'0'` to width 4. -/
def zeroPad4 (l : List Char) : List Char :=
  List.replicate (4 - l.length) '0' ++ l

/-- `next_edge_id`'s formatting of a counter value `n`. -/
def edgeIdStr (n : Nat) : String :=
  String.mk ('e' :: zeroPad4 (decDigits n))

/-! ## TRAPI data model (`trapi.py`) -/

/-- A `TERM_DATA` entry: one SemSimian object-best-match record as parsed by
`parse_raw_semsim`. -/
structure TermData where
  subject_id : String
  subject_name : String
  object_id : String
  object_name : String
  category : String
  score : Rat
  matched_term : String

/-- A `RESULT_ENTRY`: the per-candidate record of the `result_map`. -/
structure ResultEntry where
  name : String
  category : String
  score : Rat
  provided_by : Option String
  «matches» : List TermData

/-- The `RESULT` dictionary handed from the Monarch adapter to
`build_trapi_message`, with all keys that the assembler reads present. -/
structure MCQResult where
  set_interpretation : String
  set_identifier : String
  query_terms : List String
  query_term_category : String
  primary_knowledge_source : String
  ingest_knowledge_source : String
  match_predicate : String
  result_map : List (String × ResultEntry)

/-- A knowledge-graph edge attribute dictionary as written by `trapi.py`. -/
structure KGAttr where
  attribute_type_id : String
  original_attribute_name : Option String := none
  value : Value
  value_type_id : Option String := none
  attribute_source : Option String := none

/-- A knowledge-graph edge. -/
structure KGEdge where
  subject : String
  predicate : String
  object : String
  sources : List RawSource
  attributes : List KGAttr

/-- A knowledge-graph node. `build_trapi_message` itself writes no
`attributes` key; the field (defaulted to `[]`) models the empty attribute
list that `format_attribute_trapi` adds before constraints are checked. -/
structure KGNode where
  name : Option String := none
  categories : List String
  members : Option (List String) := none
  is_set : Option Bool := none
  provided_by : Option Value := none
  attributes : List KGAttr := []

/-- A TRAPI query-graph node (the fields read by the pipeline). -/
structure QNode where
  ids : Option (List String) := none
  categories : Option (List String) := none
  is_set : Option Bool := none
  set_interpretation : Option String := none
  member_ids : Option (List String) := none
  constraints : List AttributeConstraint := []

/-- A TRAPI query-graph edge (the fields read by the pipeline). -/
structure QEdge where
  subject : String := ""
  object : String := ""
  attribute_constraints : List AttributeConstraint := []

/-- One entry of a result's `analyses` list. -/
structure Analysis where
  resource_id : String
  edge_bindings : List (String × List String)

/-- One entry of the TRAPI `results` list; bindings map a query-graph key
to the list of bound knowledge-graph identifiers. -/
structure TrapiResult where
  node_bindings : List (String × List String)
  analyses : List Analysis

/-- The message parts produced by `build_trapi_message`:
`knowledge_graph.nodes`, `knowledge_graph.edges`, `auxiliary_graphs`
(graph id to edge-id list) and `results`. -/
structure TrapiResponse where
  nodes : List (String × KGNode)
  edges : List (String × KGEdge)
  aux : List (String × List String)
  results : List TrapiResult

/-- A normal return of `build_trapi_message`: either the Python
`{"error": ...}` dictionary or the assembled response. -/
inductive BuildOutput where
  | errorDict (msg : String)
  | response (r : TrapiResponse)

/-- Python `str.upper()` (character-wise uppercasing). -/
def pyUpper (s : String) : String := ⟨s.data.map Char.toUpper⟩

/-- Python `str.startswith(pre)` (character-prefix test). -/
def pyStartswith (s pre : String) : Bool := pre.data.isPrefixOf s.data

/-- The `RuntimeError` message raised by `mcq_subject_qnode`. -/
def mcqIllFormedMsg : String :=
  "Query Graph Node 'set_interpretation' is 'MANY' or 'ALL', thus 'ids' " ++
  "must have a single global ('UUID') set identifier and query input identifiers " ++
  "for the set need to be listed in the 'member_ids' list."

/-- `mcq_subject_qnode` (`trapi.py`): returns the first category of a
well-formed MCQ subject node, `none` for a non-set node, raises
`RuntimeError` for a set node that is not well-formed, and `KeyError`
when a qualifying node carries no categories. -/
def mcq_subject_qnode (nd : QNode) : Except PyErr (Option String) :=
  match nd.is_set, nd.set_interpretation with
  | some true, some si =>
    if si = "MANY" ∨ si = "ALL" then
      match nd.ids, nd.member_ids with
      | some ids, some mids =>
        if ids.length = 1 ∧ pyStartswith (pyUpper (ids.headD "")) "UUID:" ∧ mids.length > 0 then
          match nd.categories with
          | some (c :: _) => .ok (some c)
          | _ => .error (.keyError "node_data[categories]")
        else .error (.runtimeError mcqIllFormedMsg)
      | _, _ => .error (.runtimeError mcqIllFormedMsg)
    else .ok none
  | _, _ => .ok none

/-- Synthetic `original_attribute_name` constants of `trapi.py`. -/
def AGGREGATE_SIMILARITY_SCORE : String := "semsimian:score"

def MATCH_TERM_SCORE : String := "semsimian:object_best_matches.*.score"

def MATCH_TERM : String := "semsimian:object_best_matches.*.similarity.ancestor_id"

/-- The per-query context that `build_trapi_message` extracts from the
input `RESULT` before assembling the response. The Biolink category
ancestor expansion `get_categories` (delegated to the external `bmt`
toolkit) is passed in as a function. -/
structure BuildCtx where
  set_interpretation : String
  input_query_set_id : String
  query_terms : List String
  query_term_category : String
  primary_knowledge_source : String
  ingest_knowledge_source : String
  match_predicate : String
  provenance : String
  getCategories : String → List String
  qnode_subject_key : String
  qnode_object_key : String

/-- The mutable assembly state: response parts, the deferred `node_map`,
the edge counter, and the `query_term_membership_edges` dictionary. -/
structure BuildState where
  edges : List (String × KGEdge)
  aux : List (String × List String)
  results : List TrapiResult
  nodeMap : List (String × KGNode)
  counter : Nat
  membership : List (String × String)

/-- The input-set node (step 1.1). -/
def setNode (ctx : BuildCtx) : KGNode :=
  { name := none
    categories := ctx.getCategories ctx.query_term_category
    members := some ctx.query_terms
    is_set := some true
    provided_by := some (.vlist [.vstr "infores:user-interface"]) }

/-- A member node for one input query term (step 1.2). -/
def memberNode (ctx : BuildCtx) : KGNode :=
  { name := none
    categories := ctx.getCategories ctx.query_term_category
    is_set := some false
    provided_by := some (.vlist [.vstr "infores:user-interface"]) }

/-- The `member_of` edge for one input query term (step 2.1). -/
def memberEdge (ctx : BuildCtx) (term_id : String) : KGEdge :=
  { subject := term_id
    predicate := "biolink:member_of"
    object := ctx.input_query_set_id
    sources := [{ resource_id := some (.rstr "infores:user-interface")
                  resource_role := some "primary_knowledge_source" }]
    attributes := [
      { attribute_type_id := "biolink:agent_type", value := .vstr "manual_agent" },
      { attribute_type_id := "biolink:knowledge_level", value := .vstr "knowledge_assertion" }] }

/-- One iteration of step 1.2/2.1 of `build_trapi_message`: add one query
term's member node, its `member_of` edge and its membership-edge
bookkeeping entry. -/
def memberStep (ctx : BuildCtx) (st : BuildState) (t : String) : BuildState :=
  let eid := edgeIdStr (st.counter + 1)
  { st with
    nodeMap := dictSet st.nodeMap t (memberNode ctx)
    edges := dictSet st.edges eid (memberEdge ctx t)
    counter := st.counter + 1
    membership := dictSet st.membership t eid }

/-- Steps 1.1-2.1 of `build_trapi_message`: seed the node map with the set
node, then fold `memberStep` over the query terms. -/
def phaseAB (ctx : BuildCtx) : BuildState :=
  ctx.query_terms.foldl (memberStep ctx)
    { edges := []
      aux := []
      results := []
      nodeMap := dictSet [] ctx.input_query_set_id (setNode ctx)
      counter := 0
      membership := [] }

/-- The cached data for one deduplicated term match
(`query_term_match_cache[term_subject_id]`). -/
structure CacheEntry where
  name : String
  category : String
  query_term : String
  score : Rat
  primary_answer_term : String
  edges : List (String × KGEdge)

/-- The state threaded through the `for term_data in matches` loop. -/
structure MatchState where
  seen : List (String × Bool)
  cache : List (String × CacheEntry)
  counter : Nat
  nodeMap : List (String × KGNode)

/-- The shared `sources` block for answer and match-to-input edges:
`common_sources` plus, when the candidate carries a `provided_by`, one more
supporting-data source. -/
def answerSources (ctx : BuildCtx) (entry : ResultEntry) : List RawSource :=
  let cs : List RawSource :=
    [{ resource_id := some (.rstr ctx.primary_knowledge_source)
       resource_role := some "primary_knowledge_source" },
     { resource_id := some (.rstr ctx.ingest_knowledge_source)
       resource_role := some "supporting_data_source" }]
  match entry.provided_by with
  | some pb => cs ++ [{ resource_id := some (.rstr pb)
                        resource_role := some "supporting_data_source" }]
  | none => cs

/-- The `Match_Associated_Term--[similar_to]->Input_Query_Term` support
edge. -/
def matchToInputEdge (ctx : BuildCtx) (answer_sources : List RawSource)
    (td : TermData) : KGEdge :=
  { subject := td.subject_id
    predicate := "biolink:similar_to"
    object := td.object_id
    sources := answer_sources
    attributes := [
      { attribute_type_id := "biolink:score"
        original_attribute_name := some MATCH_TERM_SCORE
        value := .vnum td.score
        value_type_id := some "linkml:Float"
        attribute_source := some ctx.primary_knowledge_source },
      { attribute_type_id := "biolink:match"
        original_attribute_name := some MATCH_TERM
        value := .vstr td.matched_term
        value_type_id := some "linkml:Uriorcurie"
        attribute_source := some ctx.primary_knowledge_source },
      { attribute_type_id := "biolink:agent_type", value := .vstr "automated_agent" },
      { attribute_type_id := "biolink:knowledge_level", value := .vstr "knowledge_assertion" }] }

/-- The `Matched_Term--[<match_predicate>]->Associated_Term` support edge. -/
def matchedTermEdge (ctx : BuildCtx) (candId : String) (td : TermData) : KGEdge :=
  { subject := candId
    predicate := ctx.match_predicate
    object := td.subject_id
    sources := [{ resource_id := some (.rstr ctx.ingest_knowledge_source)
                  resource_role := some "primary_knowledge_source" }]
    attributes := [
      { attribute_type_id := "biolink:has_evidence"
        value := .vstr "ECO:0000304"
        value_type_id := some "linkml:Uriorcurie"
        attribute_source := some ctx.ingest_knowledge_source },
      { attribute_type_id := "biolink:agent_type", value := .vstr "automated_agent" },
      { attribute_type_id := "biolink:knowledge_level", value := .vstr "knowledge_assertion" }] }

/-- The body shared by both surviving branches of the match loop: record the
input term as seen, harvest its name into the node map (raising `KeyError`
when the matched input term is not a node-map key), allocate the two support
edges and (re)write the cache entry for `td.subject_id`. -/
def matchEmit (ctx : BuildCtx) (candId : String) (answer_sources : List RawSource)
    (st : MatchState) (td : TermData) : Except PyErr MatchState := do
  let seen2 := if containsKey st.seen td.object_id then dictSet st.seen td.object_id true
               else st.seen
  let nodeMap2 ←
    match dictGet st.nodeMap td.object_id with
    | none => Except.error (.keyError "node_map[term_object_id]")
    | some nd =>
      Except.ok (if nd.name.isNone
                 then dictSet st.nodeMap td.object_id { nd with name := some td.object_name }
                 else st.nodeMap)
  let e1 := edgeIdStr (st.counter + 1)
  let e2 := edgeIdStr (st.counter + 2)
  let entry : CacheEntry :=
    { name := td.subject_name
      category := td.category
      query_term := td.object_id
      score := td.score
      primary_answer_term := candId
      edges := [(e1, matchToInputEdge ctx answer_sources td),
                (e2, matchedTermEdge ctx candId td)] }
  Except.ok { seen := seen2
              cache := dictSet st.cache td.subject_id entry
              counter := st.counter + 2
              nodeMap := nodeMap2 }

/-- One iteration of the `for term_data in matches` loop: when the match
target was already cached, a strictly lower-scoring match is skipped and an
equal-or-higher-scoring match overwrites the cached entry after resetting
the previously recorded input term's `seen` flag. -/
def matchStep (ctx : BuildCtx) (candId : String) (answer_sources : List RawSource)
    (st : MatchState) (td : TermData) : Except PyErr MatchState :=
  match dictGet st.cache td.subject_id with
  | some prev =>
    if td.score < prev.score then Except.ok st
    else matchEmit ctx candId answer_sources
      { st with seen := dictSet st.seen prev.query_term false } td
  | none => matchEmit ctx candId answer_sources st td

/-- The core similarity answer edge (step 2.2). -/
def answerEdge (ctx : BuildCtx) (candId : String) (answer_sources : List RawSource)
    (answer_score : Rat) (support_graph_id : String) : KGEdge :=
  { subject := candId
    predicate := "biolink:similar_to"
    object := ctx.input_query_set_id
    sources := answer_sources
    attributes := [
      { attribute_type_id := "biolink:score"
        original_attribute_name := some AGGREGATE_SIMILARITY_SCORE
        value := .vnum answer_score
        value_type_id := some "linkml:Float"
        attribute_source := some ctx.primary_knowledge_source },
      { attribute_type_id := "biolink:support_graphs"
        value := .vlist [.vstr support_graph_id]
        value_type_id := some "linkml:String"
        attribute_source := some ctx.primary_knowledge_source },
      { attribute_type_id := "biolink:agent_type", value := .vstr "automated_agent" },
      { attribute_type_id := "biolink:knowledge_level", value := .vstr "knowledge_assertion" }] }

/-- The candidate-node addition (step 1.3): absent candidates are added
with name, expanded categories and the (required) `provided_by` of the
result entry (`KeyError` when the entry lacks one). -/
def candidateNodeMap (ctx : BuildCtx) (candId : String) (entry : ResultEntry)
    (nodeMap : List (String × KGNode)) : Except PyErr (List (String × KGNode)) :=
  if containsKey nodeMap candId then Except.ok nodeMap
  else
    match entry.provided_by with
    | none => Except.error (.keyError "result_entry[provided_by]")
    | some pb =>
      Except.ok (dictSet nodeMap candId
        { name := some entry.name
          categories := ctx.getCategories entry.category
          is_set := some false
          provided_by := some (.vstr pb) })

/-- One iteration of the `for term_match_id, details in
query_term_match_cache.items()` loop: add the matched-term node when
absent, move the two cached support edges into the knowledge graph, and
append their ids plus the input term's membership edge id to the support
graph's edge list. -/
def cacheEmitStep (ctx : BuildCtx) (membership : List (String × String))
    (acc : List (String × KGNode) × List (String × KGEdge) × List String)
    (kv : String × CacheEntry) :
    Except PyErr (List (String × KGNode) × List (String × KGEdge) × List String) :=
  let nm := acc.1
  let eds := acc.2.1
  let axl := acc.2.2
  let tmId := kv.1
  let details := kv.2
  let nm' :=
    if containsKey nm tmId then nm
    else dictSet nm tmId
      { name := some details.name
        categories := ctx.getCategories details.category }
  let eds' := details.edges.foldl (fun e p => dictSet e p.1 p.2) eds
  let axl' := axl ++ details.edges.map Prod.fst
  match dictGet membership details.query_term with
  | none => Except.error (.keyError "query_term_membership_edges[query_term]")
  | some mid => Except.ok (nm', eds', axl' ++ [mid])

/-- The emission tail of candidate processing (run when the
set-interpretation filter lets the candidate through): candidate node,
answer edge, support graph with all cached support and membership edges,
and the result binding. -/
def candidateEmit (ctx : BuildCtx) (st : BuildState) (cand : String × ResultEntry)
    (ms : MatchState) : Except PyErr BuildState := do
  let candId := cand.1
  let entry := cand.2
  let asrc := answerSources ctx entry
  let nm1 ← candidateNodeMap ctx candId entry ms.nodeMap
  let aeid := edgeIdStr (ms.counter + 1)
  let support_graph_id := "sg-" ++ aeid
  let edges1 := dictSet st.edges aeid (answerEdge ctx candId asrc entry.score support_graph_id)
  let aux1 := dictSet st.aux support_graph_id []
  let folded ← ms.cache.foldlM (cacheEmitStep ctx st.membership) (nm1, edges1, [])
  let aux2 := dictSet aux1 support_graph_id folded.2.2
  let binding : TrapiResult :=
    { node_bindings :=
        dictSet (dictSet [] ctx.qnode_subject_key [ctx.input_query_set_id])
          ctx.qnode_object_key [candId]
      analyses := [{ resource_id := ctx.provenance
                     edge_bindings := [("e01", [aeid])] }] }
  Except.ok { edges := folded.2.1
              aux := aux2
              results := st.results ++ [binding]
              nodeMap := folded.1
              counter := ms.counter + 1
              membership := st.membership }

/-- Processing of one `(primary_answer_term_id, result_entry)` pair of the
`result_map`: run the match loop, apply the `ALL` set-interpretation filter,
then (on survival) emit the candidate's nodes, edges, support graph and
result binding. -/
def processCandidate (ctx : BuildCtx) (st : BuildState)
    (cand : String × ResultEntry) : Except PyErr BuildState := do
  let candId := cand.1
  let entry := cand.2
  let asrc := answerSources ctx entry
  let seen0 := ctx.query_terms.foldl (fun d t => dictSet d t false) []
  let ms ← entry.«matches».foldlM (matchStep ctx candId asrc)
    { seen := seen0, cache := [], counter := st.counter, nodeMap := st.nodeMap }
  if ctx.set_interpretation = "ALL" ∧ ¬(ms.seen.all (fun kv => kv.2) = true) then
    -- `continue`: the candidate contributes nothing, but the edge counter,
    -- node-map name harvesting and `seen` bookkeeping have already advanced.
    Except.ok { st with counter := ms.counter, nodeMap := ms.nodeMap }
  else
    candidateEmit ctx st cand ms

/-- The `for qnode_id, node_data in nodes.items()` loop of
`build_trapi_message`: the MCQ subject node's key becomes the subject
binding key, any other node's key the object binding key (defaults
`n0`/`n1`); a `RuntimeError` from `mcq_subject_qnode` is caught and turned
into the `{"error": ...}` return. -/
def assignQnodeKeys : List (String × QNode) → (String × String) →
    Except PyErr (Except String (String × String))
  | [], acc => .ok (.ok acc)
  | (qid, nd) :: rest, acc =>
    match mcq_subject_qnode nd with
    | .error (.runtimeError m) => .ok (.error m)
    | .error e => .error e
    | .ok (some _) => assignQnodeKeys rest (qid, acc.2)
    | .ok none => assignQnodeKeys rest (acc.1, qid)

/-- `build_trapi_message` (`trapi.py`): assemble the knowledge graph,
auxiliary support graphs and results for one query from the parsed
similarity `RESULT`. `getCats` stands for the Biolink-toolkit category
ancestor expansion and `provenance` for the system provenance tag. -/
def build_trapi_message (getCats : String → List String) (provenance : String)
    (qnodes : List (String × QNode)) (result : MCQResult) :
    Except PyErr BuildOutput := do
  if qnodes.isEmpty ∨ qnodes.length > 2 then
    Except.ok (.errorDict "build_trapi_message(): exact two query nodes are required")
  else
    match assignQnodeKeys qnodes ("n0", "n1") with
    | .error e => Except.error e
    | .ok (.error m) => Except.ok (.errorDict m)
    | .ok (.ok keys) => do
      let ctx : BuildCtx :=
        { set_interpretation := result.set_interpretation
          input_query_set_id := result.set_identifier
          query_terms := result.query_terms
          query_term_category := result.query_term_category
          primary_knowledge_source := result.primary_knowledge_source
          ingest_knowledge_source := result.ingest_knowledge_source
          match_predicate := result.match_predicate
          provenance := provenance
          getCategories := getCats
          qnode_subject_key := keys.1
          qnode_object_key := keys.2 }
      let st0 := phaseAB ctx
      let stF ← result.result_map.foldlM (processCandidate ctx) st0
      Except.ok (.response { nodes := stF.nodeMap
                             edges := stF.edges
                             aux := stF.aux
                             results := stF.results })

/-! ## Monarch adapter (`monarch_adapter.py`) -/

/-- One `object_best_matches` value of a raw SemSimian record (the fields
read by `parse_raw_semsim`); `ancestor_id = ""` models a falsy
`similarity.ancestor_id`. -/
structure ObjectMatch where
  match_source : String
  match_source_label : String
  match_target : String
  match_target_label : String
  score : Rat
  ancestor_id : String

/-- One raw SemSimian search result (a non-empty JSON object, hence truthy;
`subject_provided_by = ""` models a missing or falsy `subject.provided_by`). -/
structure SemsimRecord where
  subject_id : String
  subject_name : String
  subject_category : String
  subject_provided_by : String
  score : Rat
  object_best_matches : List (String × ObjectMatch)

/-- The `_map_source` alias table with its `setdefault` fallback:
`phenio_nodes` maps to `infores:upheno`, any other raw token is prefixed
with `infores:`. -/
def mapSource (provided_by : String) : String :=
  if provided_by = "phenio_nodes" then "infores:upheno" else "infores:" ++ provided_by

/-- `parse_raw_semsim`: index the raw records by `subject.id` and synthesize
one `TERM_DATA` per `object_best_matches` value, with `matched_term` the
`ancestor_id` when truthy, else the `match_target`. -/
def parse_raw_semsim (full_result : List SemsimRecord) (match_category : String) :
    List (String × ResultEntry) :=
  full_result.foldl
    (fun acc entry =>
      let ms : List TermData := entry.object_best_matches.map (fun kv =>
        let om := kv.2
        { subject_id := om.match_target
          subject_name := om.match_target_label
          object_id := om.match_source
          object_name := om.match_source_label
          category := match_category
          score := om.score
          matched_term := if om.ancestor_id ≠ "" then om.ancestor_id else om.match_target })
      dictSet acc entry.subject_id
        { name := entry.subject_name
          category := entry.subject_category
          score := entry.score
          provided_by :=
            if entry.subject_provided_by ≠ "" then some (mapSource entry.subject_provided_by)
            else none
          «matches» := ms })
    []

/-- The `RESULT` dictionary as built incrementally by
`phenotype_semsim_to_disease` (every key optional, since an ill-formed
query graph yields the empty dictionary). -/
structure AdapterResult where
  set_interpretation : Option String := none
  set_identifier : Option String := none
  query_terms : Option (List String) := none
  query_term_category : Option String := none
  primary_knowledge_source : Option String := none
  ingest_knowledge_source : Option String := none
  match_predicate : Option String := none
  result_map : Option (List (String × ResultEntry)) := none

/-- The MCQ-parameter extraction loop of `phenotype_semsim_to_disease`:
find the first query node recognized by the MCQ subject test (imported from
`trapi.py`) and extract `set_interpretation`, the set identifier, the member
terms and the category (default `biolink:NamedThing`); a `RuntimeError` is
caught (aborting the loop with nothing assigned), other errors propagate. -/
def findMCQparams : List (String × QNode) →
    Except PyErr (Option (String × String × List String × String))
  | [] => .ok none
  | (_, nd) :: rest =>
    match mcq_subject_qnode nd with
    | .error (.runtimeError _) => .ok none
    | .error e => .error e
    | .ok (some cat) =>
      if cat = "" then findMCQparams rest
      else
        match nd.set_interpretation, nd.ids, nd.member_ids with
        | some si, some (sid :: _), some mids =>
          let category :=
            match nd.categories with
            | some (c :: _) => c
            | _ => "biolink:NamedThing"
          .ok (some (si, sid, mids, category))
        | _, _, _ => .ok none
    | .ok none => findMCQparams rest

/-- `phenotype_semsim_to_disease`, with the upstream `semsim_search`
response passed in as `full_result`: on a recognized MCQ subject node the
result metadata is filled in and the guard `if full_result[0]:` indexes the
first raw record — `IndexError` on an empty response, the parsed
`result_map` when the first record is truthy (records are modelled as
non-empty JSON objects, hence always truthy). Without a recognized subject
node the empty result dictionary is returned. -/
def phenotype_semsim_to_disease (qnodes : List (String × QNode))
    (full_result : List SemsimRecord) : Except PyErr AdapterResult := do
  match ← findMCQparams qnodes with
  | none => Except.ok {}
  | some (si, sid, mids, category) =>
    match full_result with
    | [] => Except.error (.indexError "list index out of range")
    | _ :: _ =>
      Except.ok
        { set_interpretation := some si
          set_identifier := some sid
          query_terms := some mids
          query_term_category := some category
          primary_knowledge_source := some "infores:semsimian-kp"
          ingest_knowledge_source := some "infores:hpo-annotations"
          match_predicate := some "biolink:has_phenotype"
          result_map := some (parse_raw_semsim full_result category) }

/-- Conversion of a completely populated adapter `RESULT` into the total
record consumed by `build_trapi_message` (`none` when any of the keys that
the assembler would read with `result[...]` is missing). -/
def AdapterResult.toMCQResult (r : AdapterResult) : Option MCQResult :=
  match r.set_interpretation, r.set_identifier, r.query_terms, r.query_term_category,
      r.primary_knowledge_source, r.ingest_knowledge_source, r.match_predicate,
      r.result_map with
  | some si, some sid, some qts, some cat, some pks, some iks, some mp, some rm =>
    some { set_interpretation := si
           set_identifier := sid
           query_terms := qts
           query_term_category := cat
           primary_knowledge_source := pks
           ingest_knowledge_source := iks
           match_predicate := mp
           result_map := rm }
  | _, _, _, _, _, _, _, _ => none

/-! ## Attribute-constraint filtering (`question.py`,
`Question.apply_attribute_constraints`) -/

/-- A full TRAPI message as seen by `apply_attribute_constraints`:
query graph, knowledge graph, auxiliary graphs and results. -/
structure Message where
  qnodes : List (String × QNode)
  qedges : List (String × QEdge)
  nodes : List (String × KGNode)
  edges : List (String × KGEdge)
  aux : List (String × List String)
  results : List TrapiResult

/-- The `Attribute(**attr)` view of a knowledge-graph attribute taken by the
constraint engine. -/
def kgAttrToDb (a : KGAttr) : DbAttribute :=
  { attribute_type_id := a.attribute_type_id, value := a.value }

/-- One iteration of the edge-filtering loop of
`Question.apply_attribute_constraints`: an edge adjacent to a filtered
node is dropped, otherwise a constrained edge failing its own constraints
is dropped. -/
def edgeFilterStep (rm : String → String → Bool) (nodes_to_filter : List String)
    (constrained_edge_ids : List (String × List AttributeConstraint))
    (acc : List String) (ev : String × KGEdge) : List String :=
  if ev.2.subject ∈ nodes_to_filter ∨ ev.2.object ∈ nodes_to_filter then
    acc ++ [ev.1]
  else
    match dictGet constrained_edge_ids ev.1 with
    | some cs =>
      if check_attributes rm cs (ev.2.attributes.map kgAttrToDb) then acc
      else acc ++ [ev.1]
    | none => acc

/-- `Question.apply_attribute_constraints`: collect constrained node/edge
ids from the result bindings, drop knowledge-graph nodes failing their
constraints, drop edges adjacent to dropped nodes or failing their own
constraints, and rebuild the results; with no constraints anywhere the
message is returned unchanged. Note that the rebuilt message contains no
`auxiliary_graphs` key (modelled as the empty map). -/
def apply_attribute_constraints (rm : String → String → Bool) (msg : Message) :
    Except PyErr Message := do
  let node_constraints := msg.qnodes.filterMap
    (fun kv => if kv.2.constraints.isEmpty then none else some (kv.1, kv.2.constraints))
  let edge_constraints := msg.qedges.filterMap
    (fun kv =>
      if kv.2.attribute_constraints.isEmpty then none
      else some (kv.1, kv.2.attribute_constraints))
  if node_constraints.isEmpty ∧ edge_constraints.isEmpty then
    Except.ok msg
  else do
    let constrained_node_ids ←
      msg.results.foldlM
        (fun (acc : List (String × List AttributeConstraint)) r =>
          node_constraints.foldlM
            (fun acc2 qc =>
              match dictGet r.node_bindings qc.1 with
              | none => Except.error (.keyError "node_bindings[q_id]")
              | some binding =>
                Except.ok (binding.foldl (fun a nid => dictSet a nid qc.2) acc2))
            acc)
        []
    let constrained_edge_ids :=
      msg.results.foldl
        (fun (acc : List (String × List AttributeConstraint)) r =>
          edge_constraints.foldl
            (fun acc2 qc =>
              r.analyses.foldl
                (fun a an =>
                  ((dictGet an.edge_bindings qc.1).getD []).foldl
                    (fun a2 eid => dictSet a2 eid qc.2) a)
                acc2)
            acc)
        []
    let nodes_to_filter ←
      constrained_node_ids.foldlM
        (fun (acc : List String) nc =>
          match dictGet msg.nodes nc.1 with
          | none => Except.error (.keyError "knowledge_graph nodes[node_id]")
          | some nd =>
            Except.ok
              (if check_attributes rm nc.2 (nd.attributes.map kgAttrToDb) then acc
               else acc ++ [nc.1]))
        []
    let edges_to_filter :=
      msg.edges.foldl (edgeFilterStep rm nodes_to_filter constrained_edge_ids) []
    let filtered_kg_nodes := msg.nodes.filter (fun kv => kv.1 ∉ nodes_to_filter)
    let filtered_kg_edges := msg.edges.filter (fun kv => kv.1 ∉ edges_to_filter)
    let filtered_bindings := filterResults nodes_to_filter edges_to_filter msg.results
    Except.ok
      { qnodes := msg.qnodes
        qedges := msg.qedges
        nodes := filtered_kg_nodes
        edges := filtered_kg_edges
        aux := []
        results := filtered_bindings }
where
  /-- Node-binding filtering: remove filtered ids; an emptied binding list
  skips the whole result. -/
  filterBindings (bad : List String) : List (String × List String) →
      Option (List (String × List String))
    | [] => some []
    | (q, b) :: rest =>
      let b' := b.filter (fun x => x ∉ bad)
      if b'.isEmpty then none
      else
        match filterBindings bad rest with
        | none => none
        | some r => some ((q, b') :: r)
  /-- Edge-binding filtering for one analysis: the boolean reports the
  `skip_result` flag (an emptied binding list breaks out, keeping the
  partially rebuilt dictionary). -/
  filterEdgeBindings (bad : List String) : List (String × List String) →
      (List (String × List String) × Bool)
    | [] => ([], false)
    | (q, b) :: rest =>
      let b' := b.filter (fun x => x ∉ bad)
      if b'.isEmpty then ([], true)
      else
        let r := filterEdgeBindings bad rest
        ((q, b') :: r.1, r.2)
  /-- The "results binding fun" loop over one result. -/
  pyFilterResult (ntf etf : List String) (r : TrapiResult) : TrapiResult × Bool :=
    match filterBindings ntf r.node_bindings with
    | none => (r, false)
    | some nb =>
      let pairs := r.analyses.map
        (fun a =>
          let fb := filterEdgeBindings etf a.edge_bindings
          ({ a with edge_bindings := fb.1 }, fb.2))
      if pairs.any (fun p => p.2) then (r, false)
      else ({ node_bindings := nb, analyses := pairs.map Prod.fst }, true)
  /-- Keep the surviving rebuilt results. -/
  filterResults (ntf etf : List String) (rs : List TrapiResult) : List TrapiResult :=
    (rs.map (pyFilterResult ntf etf)).filterMap
      (fun p => if p.2 then some p.1 else none)

/-- The deduplicated cache entry written for one surviving term match
(the record stored by the match loop at `td.subject_id`). -/
def matchCacheEntry (ctx : BuildCtx) (candId : String) (asrc : List RawSource)
    (counter : Nat) (td : TermData) : CacheEntry :=
  { name := td.subject_name
    category := td.category
    query_term := td.object_id
    score := td.score
    primary_answer_term := candId
    edges := [(edgeIdStr (counter + 1), matchToInputEdge ctx asrc td),
              (edgeIdStr (counter + 2), matchedTermEdge ctx candId td)] }

/-! ## Invariants used by the verification -/

/-- The shape of one deduplicated cache entry: exactly the match-to-input
edge (subject = match target, object = the recorded input term, which is
one of the query terms) and the match-to-candidate edge (subject = the
candidate, object = the match target). -/
def CacheShape (ctx : BuildCtx) (candId : String) (kv : String × CacheEntry) : Prop :=
  kv.2.query_term ∈ ctx.query_terms ∧
  ∃ e1id e1 e2id e2, kv.2.edges = [(e1id, e1), (e2id, e2)] ∧
    e1.subject = kv.1 ∧ e1.predicate = "biolink:similar_to" ∧
    e1.object = kv.2.query_term ∧
    e2.subject = candId ∧ e2.object = kv.1

/-- The invariant maintained by the `for term_data in matches` loop:
cache keys are unique, cached entries have the `CacheShape`, a `seen` flag
set to true always has a witnessing cache entry, every query term has a
`seen` flag, and all cached edge ids were allocated at or below the
current counter. -/
def MatchInv (ctx : BuildCtx) (candId : String) (st : MatchState) : Prop :=
  (st.cache.map Prod.fst).Nodup ∧
  (∀ kv ∈ st.cache, CacheShape ctx candId kv) ∧
  (∀ t, dictGet st.seen t = some true → ∃ kv ∈ st.cache, kv.2.query_term = t) ∧
  (∀ t ∈ ctx.query_terms, containsKey st.seen t = true) ∧
  (∀ kv ∈ st.cache, ∀ p ∈ kv.2.edges, ∃ j, j ≤ st.counter ∧ p.1 = edgeIdStr j)

/-- Every edge of the dictionary references node-map keys at both ends. -/
def EdgesRef (nm : List (String × KGNode)) (eds : List (String × KGEdge)) : Prop :=
  ∀ kv ∈ eds, containsKey nm kv.2.subject = true ∧ containsKey nm kv.2.object = true

/-- The build-state invariant behind the edges-reference-nodes property:
the set node and all member nodes are node-map keys, and every knowledge
graph edge references node-map keys. -/
def BuildInv (ctx : BuildCtx) (st : BuildState) : Prop :=
  (∀ t ∈ ctx.query_terms, containsKey st.nodeMap t = true) ∧
  containsKey st.nodeMap ctx.input_query_set_id = true ∧
  EdgesRef st.nodeMap st.edges

/-! ## Concrete fixtures for witnesses and counterexamples -/

/-- The raw sources of end-to-end scenario 5 (sources tree composition). -/
def c2Sources : List RawSource :=
  [{ resource_id := some (.rstr "infores:semsimian-kp")
     resource_role := some "primary_knowledge_source" },
   { resource_id := some (.rstr "infores:hpo-annotations")
     resource_role := some "supporting_data_source" },
   { resource_id := some (.rstr "infores:upheno")
     resource_role := some "supporting_data_source" }]

/-- The sources tree computed for `c2Sources`. -/
def c2TreeOut : List FormattedSource :=
  [{ resource_id := "infores:semsimian-kp"
     resource_role := "primary_knowledge_source"
     source_record_urls := none
     upstream_resource_ids := some ["infores:hpo-annotations", "infores:upheno"] },
   { resource_id := "infores:hpo-annotations"
     resource_role := "supporting_data_source"
     source_record_urls := none
     upstream_resource_ids := none },
   { resource_id := "infores:upheno"
     resource_role := "supporting_data_source"
     source_record_urls := none
     upstream_resource_ids := none },
   { resource_id := "infores:monarchinitiative"
     resource_role := "aggregator_knowledge_source"
     source_record_urls := none
     upstream_resource_ids := some ["infores:semsimian-kp"] }]

/-- A unit category expansion for concrete runs (each category is its own
singleton ancestor list). -/
def unitCats : String → List String := fun c => [c]

/-- A concrete build context for the two-term MANY query. -/
def mcqCtx : BuildCtx :=
  { set_interpretation := "MANY"
    input_query_set_id := "UUID:4403ddf2-f724-4b3b-a877-de08315b784f"
    query_terms := ["HP:0002104", "HP:0012378"]
    query_term_category := "biolink:PhenotypicFeature"
    primary_knowledge_source := "infores:semsimian-kp"
    ingest_knowledge_source := "infores:hpo-annotations"
    match_predicate := "biolink:has_phenotype"
    provenance := "infores:monarchinitiative"
    getCategories := unitCats
    qnode_subject_key := "phenotypes"
    qnode_object_key := "diseases" }

/-- Two term matches sharing the same match target (`subject_id`) with
equal scores but different input terms. -/
def c5m1 : TermData :=
  { subject_id := "HP:0001699", subject_name := "first"
    object_id := "HP:0002104", object_name := "Apnea (HPO)"
    category := "biolink:PhenotypicFeature", score := 5
    matched_term := "HP:0025142" }

def c5m2 : TermData :=
  { subject_id := "HP:0001699", subject_name := "second"
    object_id := "HP:0012378", object_name := "Dyspnea (HPO)"
    category := "biolink:PhenotypicFeature", score := 5
    matched_term := "HP:0025142" }

/-- A lower-scoring duplicate of the same match target. -/
def c5mLow : TermData :=
  { subject_id := "HP:0001699", subject_name := "low"
    object_id := "HP:0012378", object_name := "Dyspnea (HPO)"
    category := "biolink:PhenotypicFeature", score := 3
    matched_term := "HP:0025142" }

/-- The match-loop state at the start of candidate processing for
`mcqCtx` (member nodes already in the node map, two member edges
allocated). -/
def c5state : MatchState :=
  { seen := [("HP:0002104", false), ("HP:0012378", false)]
    cache := []
    counter := 2
    nodeMap := (phaseAB mcqCtx).nodeMap }

/-- A previously cached entry for the match target `HP:0001699`. -/
def c5prev : CacheEntry :=
  { name := "first", category := "biolink:PhenotypicFeature"
    query_term := "HP:0002104", score := 5
    primary_answer_term := "MONDO:0008807", edges := [] }

/-- `c5state` with `c5prev` already cached. -/
def c5stCached : MatchState :=
  { seen := [("HP:0002104", true), ("HP:0012378", false)]
    cache := [("HP:0001699", c5prev)]
    counter := 4
    nodeMap := (phaseAB mcqCtx).nodeMap }

/-- A `MANY`-mode candidate entry that matches only one of the two input
terms (`HP:0002104`), used to exercise the set-interpretation filter. -/
def c4entry : ResultEntry :=
  { name := "obsolete apnea, central sleep"
    category := "biolink:Disease"
    score := 13
    provided_by := some "infores:upheno"
    «matches» := [c5m1] }

/-- The MCQ subject query node of the two-term MANY end-to-end query. -/
def c1subjectQNode : QNode :=
  { ids := some ["UUID:4403ddf2-f724-4b3b-a877-de08315b784f"]
    categories := some ["biolink:PhenotypicFeature"]
    is_set := some true
    set_interpretation := some "MANY"
    member_ids := some ["HP:0002104", "HP:0012378"] }

/-- The object query node of the two-term MANY end-to-end query. -/
def c1objectQNode : QNode :=
  { categories := some ["biolink:Disease"] }

def c1qnodes : List (String × QNode) :=
  [("phenotypes", c1subjectQNode), ("diseases", c1objectQNode)]

/-- Term matches of the top candidate: one per input term, with distinct
match targets. -/
def c1m1 : TermData :=
  { subject_id := "HP:0010741", subject_name := "Pedal edema"
    object_id := "HP:0002104", object_name := "Apnea"
    category := "biolink:PhenotypicFeature", score := 12
    matched_term := "HP:0025142" }

def c1m2 : TermData :=
  { subject_id := "HP:0002094", subject_name := "Dyspnea (D)"
    object_id := "HP:0012378", object_name := "Fatigue"
    category := "biolink:PhenotypicFeature", score := 14
    matched_term := "HP:0025142" }

/-- The top candidate's `result_map` entry. -/
def c1entry : ResultEntry :=
  { name := "obesity, autosomal dominant"
    category := "biolink:Disease"
    score := 13
    provided_by := some "infores:upheno"
    «matches» := [c1m1, c1m2] }

/-- The parsed `RESULT` for the two-term MANY query with `MONDO:0008807`
as top candidate. -/
def c3result : MCQResult :=
  { set_interpretation := "MANY"
    set_identifier := "UUID:4403ddf2-f724-4b3b-a877-de08315b784f"
    query_terms := ["HP:0002104", "HP:0012378"]
    query_term_category := "biolink:PhenotypicFeature"
    primary_knowledge_source := "infores:semsimian-kp"
    ingest_knowledge_source := "infores:hpo-annotations"
    match_predicate := "biolink:has_phenotype"
    result_map := [("MONDO:0008807", c1entry)] }

/-- Raw upstream similarity matches of the forged response: one per input
term. -/
def c1om1 : ObjectMatch :=
  { match_source := "HP:0002104", match_source_label := "Apnea"
    match_target := "HP:0010741", match_target_label := "Pedal edema"
    score := 12, ancestor_id := "HP:0025142" }

def c1om2 : ObjectMatch :=
  { match_source := "HP:0012378", match_source_label := "Fatigue"
    match_target := "HP:0002094", match_target_label := "Dyspnea (D)"
    score := 14, ancestor_id := "HP:0025142" }

/-- The forged well-formed upstream similarity record for the top
candidate `MONDO:0008807`. -/
def c1record : SemsimRecord :=
  { subject_id := "MONDO:0008807", subject_name := "obesity, autosomal dominant"
    subject_category := "biolink:Disease", subject_provided_by := "phenio_nodes"
    score := 13
    object_best_matches := [("HP:0002104", c1om1), ("HP:0012378", c1om2)] }

/-- The adapter `RESULT` parsed from the forged upstream response. -/
def c1adapter : AdapterResult :=
  { set_interpretation := some "MANY"
    set_identifier := some "UUID:4403ddf2-f724-4b3b-a877-de08315b784f"
    query_terms := some ["HP:0002104", "HP:0012378"]
    query_term_category := some "biolink:PhenotypicFeature"
    primary_knowledge_source := some "infores:semsimian-kp"
    ingest_knowledge_source := some "infores:hpo-annotations"
    match_predicate := some "biolink:has_phenotype"
    result_map := some [("MONDO:0008807", c1entry)] }

/-- `Question.answer` as wired in the snapshot: the entry point calls
`monarch_interface.run_query(trapi_message=..., result_limit=...)`, but
`run_query(self, query_id, trapi_message, result_limit)` declares
`query_id` required, so under Python call semantics the call raises
`TypeError` before any query executes. (Independently, the subsequent
`build_trapi_message(trapi_message=..., result=...)` call omits its
required `provenance` parameter, and `monarch_adapter.py` imports the
nonexistent name `is_mcq_subject_qnode` from `trapi.py`, which already
aborts module import with `ImportError`.) -/
def question_answer (qnodes : List (String × QNode)) (result_limit : Nat) :
    Except PyErr BuildOutput :=
  Except.error (.typeError
    "run_query() missing 1 required positional argument: query_id")

/-- A regex matcher for constraint checking (no `matches` constraints are
used by the fixtures, so the choice is irrelevant). -/
def c6rm : String → String → Bool := fun _ _ => false

/-- The node constraint of the C6 run: category equal to
`biolink:Disease`. -/
def c6constraint : AttributeConstraint :=
  { id := "biolink:category"
    operator := .equal_to, value := .vstr "biolink:Disease", negated := false }

/-- The `biolink:support_graphs` attribute carried by the surviving
answer edge. -/
def c6sgAttr : KGAttr :=
  { attribute_type_id := "biolink:support_graphs"
    value := .vlist [.vstr "sg-e0007"]
    value_type_id := some "linkml:String"
    attribute_source := some "infores:semsimian-kp" }

/-- The answer edge declaring the support graph `sg-e0007`. -/
def c6edge : KGEdge :=
  { subject := "MONDO:0008807"
    predicate := "biolink:similar_to"
    object := "UUID:4403ddf2-f724-4b3b-a877-de08315b784f"
    sources := []
    attributes := [c6sgAttr] }

/-- A client message carrying one satisfied node constraint, the answer
edge with its support-graph attribute, and the populated
`auxiliary_graphs` map. -/
def c6msg : Message :=
  { qnodes := [("phenotypes", { ids := some ["UUID:4403ddf2-f724-4b3b-a877-de08315b784f"] }),
               ("diseases", { categories := some ["biolink:Disease"]
                              constraints := [c6constraint] })]
    qedges := [("e01", {})]
    nodes := [("UUID:4403ddf2-f724-4b3b-a877-de08315b784f",
                { categories := ["biolink:PhenotypicFeature"] }),
              ("MONDO:0008807",
                { name := some "obesity, autosomal dominant"
                  categories := ["biolink:Disease"]
                  attributes := [{ attribute_type_id := "biolink:category"
                                   value := .vstr "biolink:Disease" }] })]
    edges := [("e0007", c6edge)]
    aux := [("sg-e0007", ["e0003", "e0004", "e0001"])]
    results := [{ node_bindings :=
                    [("phenotypes", ["UUID:4403ddf2-f724-4b3b-a877-de08315b784f"]),
                     ("diseases", ["MONDO:0008807"])]
                  analyses := [{ resource_id := "infores:monarchinitiative"
                                 edge_bindings := [("e01", ["e0007"])] }] }] }

/-! ## Theorems -/

theorem dictGet_dictSet_self {α β : Type} [DecidableEq α]
    (d : List (α × β)) (k : α) (v : β) : dictGet (dictSet d k v) k = some v := by
  induction d with
  | nil => simp [dictSet, dictGet]
  | cons p rest ih =>
    by_cases h : p.1 = k <;> simp [dictSet, dictGet, h, ih]

theorem dictGet_dictSet_ne {α β : Type} [DecidableEq α]
    (d : List (α × β)) (k k' : α) (v : β) (h : k ≠ k') :
    dictGet (dictSet d k v) k' = dictGet d k' := by
  induction d with
  | nil => simp [dictSet, dictGet, h]
  | cons p rest ih =>
    have h2 : ¬k' = k := fun hc => h hc.symm
    by_cases hp : p.1 = k
    · simp [dictSet, dictGet, hp, h]
    · by_cases hp' : p.1 = k' <;> simp [dictSet, dictGet, hp, hp', h2, ih]

theorem mem_of_dictGet {α β : Type} [DecidableEq α]
    {d : List (α × β)} {k : α} {v : β} (h : dictGet d k = some v) : (k, v) ∈ d := by
  induction d with
  | nil => simp [dictGet] at h
  | cons p rest ih =>
    obtain ⟨pk, pv⟩ := p
    by_cases hp : pk = k
    · simp only [dictGet, hp, if_pos rfl] at h
      subst hp
      obtain rfl : pv = v := by injection h
      exact List.mem_cons_self _ _
    · simp only [dictGet, hp, if_neg hp] at h
      exact List.mem_cons_of_mem _ (ih h)

theorem containsKey_dictSet {α β : Type} [DecidableEq α]
    (d : List (α × β)) (k k' : α) (v : β) :
    containsKey (dictSet d k v) k' = (containsKey d k' || decide (k' = k)) := by
  by_cases h : k = k'
  · subst h; simp [containsKey, dictGet_dictSet_self]
  · simp [containsKey, dictGet_dictSet_ne d k k' v h,
      show k' ≠ k from fun hc => h hc.symm]

theorem containsKey_mono_dictSet {α β : Type} [DecidableEq α]
    {d : List (α × β)} {k' : α} (k : α) (v : β) (h : containsKey d k' = true) :
    containsKey (dictSet d k v) k' = true := by
  rw [containsKey_dictSet]; simp [h]

theorem keys_dictSet_of_containsKey {α β : Type} [DecidableEq α]
    {d : List (α × β)} {k : α} (v : β) (h : containsKey d k = true) :
    (dictSet d k v).map Prod.fst = d.map Prod.fst := by
  induction d with
  | nil => simp [containsKey, dictGet] at h
  | cons p rest ih =>
    by_cases hp : p.1 = k
    · simp [dictSet, hp]
    · simp [containsKey, dictGet, hp] at h
      simp [dictSet, hp, ih h]

theorem containsKey_of_dictSet_eq_keys {α β : Type} [DecidableEq α]
    {d : List (α × β)} {k k' : α} {v : β}
    (h : containsKey (dictSet d k v) k' = true) (hne : k' ≠ k) :
    containsKey d k' = true := by
  rw [containsKey_dictSet] at h
  simpa [hne] using h

theorem decDigitsAux_eq (fuel : Nat) :
    ∀ fuel' n, n ≤ fuel → n ≤ fuel' → decDigitsAux fuel n = decDigitsAux fuel' n := by
  induction fuel with
  | zero =>
    intro fuel' n h _
    obtain rfl : n = 0 := Nat.le_zero.mp h
    cases fuel' with
    | zero => rfl
    | succ f => rw [decDigitsAux, decDigitsAux, if_pos (by omega)]
  | succ fuel ih =>
    intro fuel' n h h'
    cases fuel' with
    | zero =>
      obtain rfl : n = 0 := Nat.le_zero.mp h'
      rw [decDigitsAux, decDigitsAux, if_pos (by omega)]
    | succ f =>
      rw [decDigitsAux, decDigitsAux]
      by_cases h10 : n < 10
      · rw [if_pos h10, if_pos h10]
      · rw [if_neg h10, if_neg h10]
        have hdiv : n / 10 < n := Nat.div_lt_self (by omega) (by omega)
        rw [ih f (n / 10) (by omega) (by omega)]

theorem decDigits_def (n : Nat) :
    decDigits n =
      if n < 10 then [digitChar n] else decDigits (n / 10) ++ [digitChar (n % 10)] := by
  unfold decDigits
  cases n with
  | zero => rw [decDigitsAux, if_pos (by omega)]
  | succ m =>
    rw [decDigitsAux]
    by_cases h10 : m + 1 < 10
    · rw [if_pos h10, if_pos h10]
    · rw [if_neg h10, if_neg h10]
      have hdiv : (m + 1) / 10 < m + 1 := Nat.div_lt_self (by omega) (by omega)
      rw [decDigitsAux_eq m ((m + 1) / 10) ((m + 1) / 10) (by omega) (by omega)]

theorem decDigits_ne_nil (n : Nat) : decDigits n ≠ [] := by
  rw [decDigits_def]
  split <;> simp

theorem digitChar_inj : ∀ a < 10, ∀ b < 10, digitChar a = digitChar b → a = b := by
  decide

theorem digitChar_lt_ne_zeroChar : ∀ a < 10, 0 < a → digitChar a ≠ '0' := by
  decide

theorem decDigits_head_ne_zero (n : Nat) (hn : 0 < n) :
    ∃ c l, decDigits n = c :: l ∧ c ≠ '0' := by
  induction n using Nat.strong_induction_on with
  | _ n ih =>
    rw [decDigits_def]
    split
    · exact ⟨digitChar n, [], rfl, digitChar_lt_ne_zeroChar n (by omega) hn⟩
    · rename_i h
      have h10 : 10 ≤ n := by omega
      have hdiv : 0 < n / 10 := Nat.div_pos h10 (by omega)
      obtain ⟨c, l, hcl, hc⟩ := ih (n / 10) (Nat.div_lt_self (by omega) (by omega)) hdiv
      exact ⟨c, l ++ [digitChar (n % 10)], by rw [hcl]; simp, hc⟩

theorem decDigits_inj : ∀ m n : Nat, decDigits m = decDigits n → m = n := by
  intro m
  induction m using Nat.strong_induction_on with
  | _ m ih =>
    intro n h
    rw [decDigits_def m, decDigits_def n] at h
    by_cases hm : m < 10 <;> by_cases hn : n < 10
    · rw [if_pos hm, if_pos hn] at h
      exact digitChar_inj m hm n hn (by simpa using h)
    · rw [if_pos hm, if_neg hn] at h
      exfalso
      have hlen := congrArg List.length h
      simp at hlen
      exact absurd hlen (decDigits_ne_nil (n / 10))
    · rw [if_neg hm, if_pos hn] at h
      exfalso
      have hlen := congrArg List.length h
      simp at hlen
      exact absurd hlen (decDigits_ne_nil (m / 10))
    · rw [if_neg hm, if_neg hn] at h
      have hrev := congrArg List.reverse h
      simp only [List.reverse_append, List.reverse_cons, List.reverse_nil,
        List.nil_append, List.singleton_append, List.cons.injEq] at hrev
      obtain ⟨hdig, hrest⟩ := hrev
      have hmod : m % 10 = n % 10 :=
        digitChar_inj _ (Nat.mod_lt _ (by omega)) _ (Nat.mod_lt _ (by omega)) hdig
      have hdiv : m / 10 = n / 10 := by
        apply ih (m / 10) (Nat.div_lt_self (by omega) (by omega))
        have := congrArg List.reverse hrest
        simpa using this
      omega

theorem dropWhile_replicate_zero (k : Nat) (l : List Char) :
    List.dropWhile (fun c => c == '0') (List.replicate k '0' ++ l) =
      List.dropWhile (fun c => c == '0') l := by
  induction k with
  | zero => simp
  | succ k ih => simpa [List.replicate_succ, List.dropWhile] using ih

theorem dropWhile_decDigits (n : Nat) :
    List.dropWhile (fun c => c == '0') (decDigits n) =
      if n = 0 then [] else decDigits n := by
  by_cases hn : n = 0
  · subst hn
    have h0 : decDigits 0 = ['0'] := by rw [decDigits_def]; rfl
    rw [h0]
    rfl
  · obtain ⟨c, l, hcl, hc⟩ := decDigits_head_ne_zero n (Nat.pos_of_ne_zero hn)
    have hc' : (c == '0') = false := by simpa using hc
    rw [hcl]
    simp [List.dropWhile, hc', hn]

theorem edgeIdStr_inj {m n : Nat} (h : edgeIdStr m = edgeIdStr n) : m = n := by
  have hdata : 'e' :: zeroPad4 (decDigits m) = 'e' :: zeroPad4 (decDigits n) := by
    have := congrArg String.data h
    simpa [edgeIdStr] using this
  have hpad : zeroPad4 (decDigits m) = zeroPad4 (decDigits n) := by
    simpa using hdata
  have hdw := congrArg (List.dropWhile (fun c => c == '0')) hpad
  unfold zeroPad4 at hdw
  rw [dropWhile_replicate_zero, dropWhile_replicate_zero,
    dropWhile_decDigits, dropWhile_decDigits] at hdw
  by_cases hm : m = 0 <;> by_cases hn : n = 0
  · omega
  · rw [if_pos hm, if_neg hn] at hdw
    exact absurd hdw.symm (decDigits_ne_nil n)
  · rw [if_neg hm, if_pos hn] at hdw
    exact absurd hdw (decDigits_ne_nil m)
  · rw [if_neg hm, if_neg hn] at hdw
    exact decDigits_inj m n hdw

theorem applyConstraintLoop_eq_none_iff (rm : String → String → Bool)
    (c : AttributeConstraint) (attrs : List DbAttribute) :
    applyConstraintLoop rm c attrs = none ↔
      ∃ a ∈ attrs, a.attribute_type_id = c.id ∧
        check_attribute_constraint rm c a.value = false := by
  induction attrs with
  | nil => simp [applyConstraintLoop]
  | cons a rest ih =>
    by_cases hid : a.attribute_type_id = c.id
    · by_cases hchk : check_attribute_constraint rm c a.value
      · simp only [applyConstraintLoop, if_pos hid, if_pos hchk]
        rw [show ((applyConstraintLoop rm c rest).map (fun _ => true) = none) ↔
            (applyConstraintLoop rm c rest = none) by
          cases applyConstraintLoop rm c rest <;> simp]
        rw [ih]
        constructor
        · rintro ⟨b, hb, h1, h2⟩
          exact ⟨b, List.mem_cons_of_mem _ hb, h1, h2⟩
        · rintro ⟨b, hb, h1, h2⟩
          rcases List.mem_cons.mp hb with hb | hb
          · subst hb
            rw [hchk] at h2
            cases h2
          · exact ⟨b, hb, h1, h2⟩
      · simp only [applyConstraintLoop, if_pos hid, if_neg hchk]
        constructor
        · intro _
          exact ⟨a, List.mem_cons_self _ _, hid, by simpa using hchk⟩
        · intro _
          trivial
    · simp only [applyConstraintLoop, if_neg hid]
      rw [ih]
      constructor
      · rintro ⟨b, hb, h1, h2⟩
        exact ⟨b, List.mem_cons_of_mem _ hb, h1, h2⟩
      · rintro ⟨b, hb, h1, h2⟩
        rcases List.mem_cons.mp hb with hb | hb
        · subst hb; exact absurd h1 hid
        · exact ⟨b, hb, h1, h2⟩

theorem applyConstraintLoop_eq_some_false_iff (rm : String → String → Bool)
    (c : AttributeConstraint) (attrs : List DbAttribute) :
    applyConstraintLoop rm c attrs = some false ↔
      ∀ a ∈ attrs, a.attribute_type_id ≠ c.id := by
  induction attrs with
  | nil => simp [applyConstraintLoop]
  | cons a rest ih =>
    by_cases hid : a.attribute_type_id = c.id
    · by_cases hchk : check_attribute_constraint rm c a.value
      · simp only [applyConstraintLoop, if_pos hid, if_pos hchk]
        constructor
        · intro h
          cases hr : applyConstraintLoop rm c rest <;> rw [hr] at h <;> simp at h
        · intro h
          exact absurd hid (h a (List.mem_cons_self _ _))
      · simp only [applyConstraintLoop, if_pos hid, if_neg hchk]
        constructor
        · intro h; cases h
        · intro h
          exact absurd hid (h a (List.mem_cons_self _ _))
    · simp only [applyConstraintLoop, if_neg hid]
      rw [ih]
      constructor
      · intro h b hb
        rcases List.mem_cons.mp hb with hb | hb
        · subst hb; exact hid
        · exact h b hb
      · intro h b hb
        exact h b (List.mem_cons_of_mem _ hb)

theorem applyConstraintLoop_eq_some_true_iff (rm : String → String → Bool)
    (c : AttributeConstraint) (attrs : List DbAttribute) :
    applyConstraintLoop rm c attrs = some true ↔
      (∃ a ∈ attrs, a.attribute_type_id = c.id) ∧
        ∀ a ∈ attrs, a.attribute_type_id = c.id →
          check_attribute_constraint rm c a.value = true := by
  constructor
  · intro h
    have hnone : applyConstraintLoop rm c attrs ≠ none := by rw [h]; simp
    have hfalse : applyConstraintLoop rm c attrs ≠ some false := by rw [h]; simp
    rw [Ne, applyConstraintLoop_eq_none_iff] at hnone
    rw [Ne, applyConstraintLoop_eq_some_false_iff] at hfalse
    push_neg at hfalse
    obtain ⟨a, ha, hid⟩ := hfalse
    refine ⟨⟨a, ha, hid⟩, fun b hb hbid => ?_⟩
    by_contra hchk
    exact hnone ⟨b, hb, hbid, by simpa using hchk⟩
  · rintro ⟨⟨a, ha, hid⟩, hall⟩
    cases hr : applyConstraintLoop rm c attrs with
    | none =>
      rw [applyConstraintLoop_eq_none_iff] at hr
      obtain ⟨b, hb, hbid, hbchk⟩ := hr
      rw [hall b hb hbid] at hbchk
      cases hbchk
    | some applied =>
      cases applied with
      | true => rfl
      | false =>
        rw [applyConstraintLoop_eq_some_false_iff] at hr
        exact absurd hid (hr a ha)

/-- C9: `check_attributes` returns true iff every constraint matches at
least one attribute by `attribute_type_id` and every matching attribute
satisfies the (negation-adjusted) operator; it returns false whenever some
constraint's id matches no attribute; constraints are conjoined. -/
theorem check_attributes_iff (rm : String → String → Bool)
    (cs : List AttributeConstraint) (attrs : List DbAttribute) :
    check_attributes rm cs attrs = true ↔
      ∀ c ∈ cs, (∃ a ∈ attrs, a.attribute_type_id = c.id) ∧
        ∀ a ∈ attrs, a.attribute_type_id = c.id →
          check_attribute_constraint rm c a.value = true := by
  induction cs with
  | nil => simp [check_attributes]
  | cons c rest ih =>
    have hstep : check_attributes rm (c :: rest) attrs = true ↔
        applyConstraintLoop rm c attrs = some true ∧ check_attributes rm rest attrs = true := by
      simp only [check_attributes]
      cases hr : applyConstraintLoop rm c attrs with
      | none => simp
      | some applied => cases applied <;> simp
    rw [hstep, ih, applyConstraintLoop_eq_some_true_iff]
    constructor
    · rintro ⟨h1, h2⟩ d hd
      rcases List.mem_cons.mp hd with hd | hd
      · subst hd; exact h1
      · exact h2 d hd
    · intro h
      exact ⟨h c (List.mem_cons_self _ _), fun d hd => h d (List.mem_cons_of_mem _ hd)⟩

/-- C9 witness: a concrete evaluation of the characterization. -/
theorem check_attributes_iff_witness :
    check_attributes (fun _ _ => false)
        [{ id := "biolink:score", operator := .equal_to, value := .vnum 5, negated := false }]
        [{ attribute_type_id := "biolink:score", value := .vnum 5 }] = true ∧
      ∀ c ∈ [({ id := "biolink:score", operator := .equal_to, value := .vnum 5,
                negated := false } : AttributeConstraint)],
        (∃ a ∈ [({ attribute_type_id := "biolink:score", value := .vnum 5 } : DbAttribute)],
            a.attribute_type_id = c.id) ∧
          ∀ a ∈ [({ attribute_type_id := "biolink:score", value := .vnum 5 } : DbAttribute)],
            a.attribute_type_id = c.id →
              check_attribute_constraint (fun _ _ => false) c a.value = true := by
  refine ⟨by rfl, ?_⟩
  exact (check_attributes_iff (fun _ _ => false) _ _).mp (by rfl)

/-- C7: the outbound SemSimian request always carries a limit in `[1, 50]`;
out-of-range limits (including 0) are replaced by 50, in-range limits are
sent unchanged. -/
theorem semsim_search_limit_clamped (query_terms : List String) (group : String)
    (result_limit : Int) :
    1 ≤ (semsim_search_request query_terms group result_limit).limit ∧
      (semsim_search_request query_terms group result_limit).limit ≤ 50 ∧
      ((result_limit < 1 ∨ result_limit > 50) →
        (semsim_search_request query_terms group result_limit).limit = 50) ∧
      (1 ≤ result_limit ∧ result_limit ≤ 50 →
        (semsim_search_request query_terms group result_limit).limit = result_limit) := by
  unfold semsim_search_request
  by_cases h1 : result_limit < 1 <;> by_cases h2 : result_limit > 50 <;>
    simp [h1, h2] <;> omega

/-- C7 witness: a caller-supplied limit of 0 goes out as 50. -/
theorem semsim_search_limit_clamped_witness :
    ((0 : Int) < 1 ∨ (0 : Int) > 50) ∧
      (semsim_search_request ["HP:0002104", "HP:0012378"] "Human Diseases" 0).limit = 50 :=
  ⟨Or.inl (by norm_num),
    (semsim_search_limit_clamped ["HP:0002104", "HP:0012378"] "Human Diseases" 0).2.2.1
      (Or.inl (by norm_num))⟩

theorem mem_setAdd {α : Type} [DecidableEq α] (l : List α) (x y : α) :
    y ∈ setAdd l x ↔ y ∈ l ∨ y = x := by
  unfold setAdd
  by_cases h : x ∈ l
  · simp only [if_pos h]
    constructor
    · exact Or.inl
    · rintro (hy | rfl) <;> [exact hy; exact h]
  · simp [if_neg h]

theorem mem_foldl_setAdd {α : Type} [DecidableEq α] (l : List α) :
    ∀ (ids : List α) (y : α), y ∈ l.foldl setAdd ids ↔ y ∈ ids ∨ y ∈ l := by
  induction l with
  | nil => simp
  | cons a rest ih =>
    intro ids y
    simp only [List.foldl_cons]
    rw [ih, mem_setAdd]
    constructor
    · rintro ((hy | rfl) | hy)
      · exact Or.inl hy
      · exact Or.inr (List.mem_cons_self _ _)
      · exact Or.inr (List.mem_cons_of_mem _ hy)
    · rintro (hy | hy)
      · exact Or.inl (Or.inl hy)
      · rcases List.mem_cons.mp hy with rfl | hy
        · exact Or.inl (Or.inr rfl)
        · exact Or.inr hy

theorem dictGet_append_single_ne {α β : Type} [DecidableEq α]
    (l : List (α × β)) (k k' : α) (v : β) (h : k' ≠ k) :
    dictGet (l ++ [(k, v)]) k' = dictGet l k' := by
  induction l with
  | nil =>
    have h2 : ¬(k = k') := fun hc => h hc.symm
    simp [dictGet, h2]
  | cons p rest ih =>
    by_cases hp : p.1 = k' <;> simp [dictGet, hp, ih]

theorem dictGet_append_single_self {α β : Type} [DecidableEq α]
    (l : List (α × β)) (k : α) (v : β) :
    dictGet (l ++ [(k, v)]) k = some ((dictGet l k).getD v) := by
  induction l with
  | nil => simp [dictGet]
  | cons p rest ih =>
    by_cases hp : p.1 = k <;> simp [dictGet, hp, ih]

theorem base_roleIds1 (roleIds : List (String × List String)) (role : String) :
    (dictGet (if containsKey roleIds role then roleIds else roleIds ++ [(role, [])])
        role).getD [] = (dictGet roleIds role).getD [] := by
  by_cases hck : containsKey roleIds role
  · simp [hck]
  · have hnone : dictGet roleIds role = none := by
      unfold containsKey at hck
      cases hd : dictGet roleIds role with
      | none => rfl
      | some _ => rw [hd] at hck; simp at hck
    simp [hck, dictGet_append_single_self, hnone]

theorem mem_getD_roleIdsAfter_self (roleIds : List (String × List String))
    (rid : ResourceId) (role : String) (x : String) :
    x ∈ (dictGet (roleIdsAfter roleIds rid role) role).getD [] ↔
      x ∈ (dictGet roleIds role).getD [] ∨ x ∈ stubIds rid := by
  simp only [roleIdsAfter]
  rw [dictGet_dictSet_self]
  cases rid with
  | rstr s =>
    simp only [Option.getD_some, stubIds]
    rw [mem_setAdd, base_roleIds1]
    simp
  | rlist l =>
    simp only [Option.getD_some, stubIds]
    rw [mem_foldl_setAdd, base_roleIds1]

theorem dictGet_roleIdsAfter_ne (roleIds : List (String × List String))
    (rid : ResourceId) (role role' : String) (h : role' ≠ role) :
    dictGet (roleIdsAfter roleIds rid role) role' = dictGet roleIds role' := by
  simp only [roleIdsAfter]
  rw [dictGet_dictSet_ne _ _ _ _ (Ne.symm h)]
  by_cases hck : containsKey roleIds role
  · simp [hck]
  · simp [hck, dictGet_append_single_ne _ _ _ _ h]

theorem mem_idsOf_sourcesStep (acc : SourcesAcc) (s : RawSource) (role : String)
    (x : String) :
    x ∈ idsOf (sourcesStep acc s) role ↔
      x ∈ idsOf acc role ∨
        ∃ rid role0, stubData s = some (rid, role0) ∧
          pyLstrip biolinkChars role0 = role ∧ x ∈ stubIds rid := by
  rcases hstub : stubData s with _ | ⟨rid, role0⟩
  · simp [sourcesStep, hstub]
  · by_cases hrole : role = pyLstrip biolinkChars role0
    · subst hrole
      simp only [sourcesStep, hstub, idsOf]
      rw [mem_getD_roleIdsAfter_self]
      constructor
      · rintro (hx | hx)
        · exact Or.inl hx
        · exact Or.inr ⟨rid, role0, rfl, rfl, hx⟩
      · rintro (hx | ⟨rid', role0', heq, hstrip, hmem⟩)
        · exact Or.inl hx
        · injection heq with hpair
          obtain ⟨h1, h2⟩ := Prod.mk.inj hpair
          subst h1
          exact Or.inr hmem
    · simp only [sourcesStep, hstub, idsOf]
      rw [dictGet_roleIdsAfter_ne _ _ _ _ hrole]
      constructor
      · exact Or.inl
      · rintro (hx | ⟨rid', role0', heq, hstrip, hmem⟩)
        · exact hx
        · injection heq with hpair
          obtain ⟨h1, h2⟩ := Prod.mk.inj hpair
          subst h2
          exact absurd hstrip.symm hrole

theorem mem_idsOf_foldl (sources : List RawSource) :
    ∀ (acc : SourcesAcc) (role x : String),
      x ∈ idsOf (sources.foldl sourcesStep acc) role ↔
        x ∈ idsOf acc role ∨ memberRoleIds sources role x := by
  induction sources with
  | nil => simp [memberRoleIds]
  | cons s rest ih =>
    intro acc role x
    simp only [List.foldl_cons]
    rw [ih, mem_idsOf_sourcesStep]
    unfold memberRoleIds
    constructor
    · rintro ((hx | ⟨rid, role0, h1, h2, h3⟩) | ⟨s', hs', rid, role0, h1, h2, h3⟩)
      · exact Or.inl hx
      · exact Or.inr ⟨s, List.mem_cons_self _ _, rid, role0, h1, h2, h3⟩
      · exact Or.inr ⟨s', List.mem_cons_of_mem _ hs', rid, role0, h1, h2, h3⟩
    · rintro (hx | ⟨s', hs', rid, role0, h1, h2, h3⟩)
      · exact Or.inl (Or.inl hx)
      · rcases List.mem_cons.mp hs' with rfl | hs'
        · exact Or.inl (Or.inr ⟨rid, role0, h1, h2, h3⟩)
        · exact Or.inr ⟨s', hs', rid, role0, h1, h2, h3⟩

theorem optionTraverse_mem {α β : Type} (f : α → Option β) :
    ∀ (l : List α) (out : List β), optionTraverse f l = some out →
      ∀ b ∈ out, ∃ a ∈ l, f a = some b := by
  intro l
  induction l with
  | nil =>
    intro out h b hb
    simp only [optionTraverse] at h
    injection h with h
    subst h
    simp at hb
  | cons a rest ih =>
    intro out h b hb
    simp only [optionTraverse] at h
    cases hfa : f a with
    | none => rw [hfa] at h; simp at h
    | some v =>
      rw [hfa] at h
      cases hrest : optionTraverse f rest with
      | none => rw [hrest] at h; simp at h
      | some vs =>
        rw [hrest] at h
        simp only at h
        injection h with h
        subst h
        rcases List.mem_cons.mp hb with rfl | hb
        · exact ⟨a, List.mem_cons_self _ _, hfa⟩
        · obtain ⟨a', ha', hfa'⟩ := ih vs hrest b hb
          exact ⟨a', List.mem_cons_of_mem _ ha', hfa'⟩

theorem optionTraverse_forall {α β : Type} (f : α → Option β) :
    ∀ (l : List α) (out : List β), optionTraverse f l = some out →
      ∀ a ∈ l, ∃ b ∈ out, f a = some b := by
  intro l
  induction l with
  | nil => intro out _ a ha; simp at ha
  | cons a rest ih =>
    intro out h c hc
    simp only [optionTraverse] at h
    cases hfa : f a with
    | none => rw [hfa] at h; simp at h
    | some v =>
      rw [hfa] at h
      cases hrest : optionTraverse f rest with
      | none => rw [hrest] at h; simp at h
      | some vs =>
        rw [hrest] at h
        simp only at h
        injection h with h
        subst h
        rcases List.mem_cons.mp hc with rfl | hc
        · exact ⟨v, List.mem_cons_self _ _, hfa⟩
        · obtain ⟨b, hb, hfb⟩ := ih vs hrest c hc
          exact ⟨b, List.mem_cons_of_mem _ hb, hfb⟩

theorem containsKey_iff_mem_keys {α β : Type} [DecidableEq α]
    (d : List (α × β)) (k : α) :
    containsKey d k = true ↔ k ∈ d.map Prod.fst := by
  induction d with
  | nil => simp [containsKey, dictGet]
  | cons p rest ih =>
    by_cases hp : p.1 = k
    · simp [containsKey, dictGet, hp]
    · simp only [containsKey, dictGet, if_neg hp, List.map_cons, List.mem_cons]
      rw [← containsKey, ih]
      constructor
      · exact Or.inr
      · rintro (hk | hk)
        · exact absurd hk.symm hp
        · exact hk

theorem dictGet_of_mem_nodup {α β : Type} [DecidableEq α]
    {d : List (α × β)} {k : α} {v : β}
    (hmem : (k, v) ∈ d) (hnd : (d.map Prod.fst).Nodup) : dictGet d k = some v := by
  induction d with
  | nil => simp at hmem
  | cons p rest ih =>
    simp only [List.map_cons, List.nodup_cons] at hnd
    rcases List.mem_cons.mp hmem with rfl | hmem
    · simp [dictGet]
    · have hne : p.1 ≠ k := by
        intro hc
        exact hnd.1 (hc ▸ List.mem_map_of_mem Prod.fst hmem)
      simp only [dictGet, if_neg hne]
      exact ih hmem hnd.2

theorem keys_nodup_roleIdsAfter (roleIds : List (String × List String))
    (rid : ResourceId) (role : String)
    (hnd : (roleIds.map Prod.fst).Nodup) :
    ((roleIdsAfter roleIds rid role).map Prod.fst).Nodup := by
  unfold roleIdsAfter
  by_cases hck : containsKey roleIds role
  · simp only [if_pos hck]
    rw [keys_dictSet_of_containsKey _ hck]
    exact hnd
  · simp only [if_neg hck]
    have hck2 : containsKey (roleIds ++ [(role, [])]) role = true := by
      unfold containsKey
      rw [dictGet_append_single_self]
      rfl
    rw [keys_dictSet_of_containsKey _ hck2]
    simp only [List.map_append, List.map_cons, List.map_nil]
    rw [List.nodup_append]
    refine ⟨hnd, List.nodup_singleton _, ?_⟩
    intro a ha hb
    simp at hb
    rw [hb] at ha
    exact absurd ((containsKey_iff_mem_keys roleIds role).mpr ha) (by simpa using hck)

theorem keys_nodup_sources_foldl (sources : List RawSource) :
    ∀ acc : SourcesAcc, (acc.roleIds.map Prod.fst).Nodup →
      (((sources.foldl sourcesStep acc).roleIds).map Prod.fst).Nodup := by
  induction sources with
  | nil => intro acc h; exact h
  | cons s rest ih =>
    intro acc h
    simp only [List.foldl_cons]
    apply ih
    rcases hstub : stubData s with _ | ⟨rid, role0⟩
    · simpa [sourcesStep, hstub] using h
    · simp only [sourcesStep, hstub]
      exact keys_nodup_roleIdsAfter _ _ _ h

theorem getD_listIfTruthy (a : Option (List String)) :
    (listIfTruthy a).getD [] = a.getD [] := by
  cases a with
  | none => rfl
  | some l =>
    by_cases h : l.isEmpty
    · have : l = [] := by simpa using h
      subst this
      rfl
    · simp [listIfTruthy, h]

theorem orTruthy_of_empty {a : Option (List String)} (h : a.getD [] = [])
    (b : Option (List String)) : orTruthy a b = b := by
  cases a with
  | none => rfl
  | some l =>
    simp only [Option.getD_some] at h
    subst h
    rfl

theorem orTruthy_of_nonempty {a : Option (List String)} (h : a.getD [] ≠ [])
    (b : Option (List String)) : orTruthy a b = a := by
  cases a with
  | none => simp at h
  | some l =>
    simp only [Option.getD_some] at h
    have : l.isEmpty = false := by simpa using h
    simp [orTruthy, this]

theorem formatRoleEntries_mem (urls : List (ResourceId × Option (List String)))
    (roleIds : List (String × List String)) (role : String) (ids : List String)
    (entries : List FormattedSource)
    (h : formatRoleEntries urls roleIds role ids = some entries) :
    ∀ e ∈ entries, e.resource_role = role ∧
      e.upstream_resource_ids = listIfTruthy (upstreamsForRole roleIds role) ∧
      e.resource_id ∈ ids := by
  intro e he
  obtain ⟨id, hid, hfe⟩ := optionTraverse_mem _ _ _ h e he
  cases hu : dictGet urls (.rstr id) with
  | none => rw [hu] at hfe; simp at hfe
  | some u =>
    rw [hu] at hfe
    simp only [Option.map_some'] at hfe
    injection hfe with hfe
    subst hfe
    exact ⟨rfl, rfl, hid⟩

theorem formatRoleEntries_forall (urls : List (ResourceId × Option (List String)))
    (roleIds : List (String × List String)) (role : String) (ids : List String)
    (entries : List FormattedSource)
    (h : formatRoleEntries urls roleIds role ids = some entries) :
    ∀ id ∈ ids, ∃ e ∈ entries, e.resource_id = id ∧ e.resource_role = role := by
  intro id hid
  obtain ⟨e, he, hfe⟩ := optionTraverse_forall _ _ _ h id hid
  cases hu : dictGet urls (.rstr id) with
  | none => rw [hu] at hfe; simp at hfe
  | some u =>
    rw [hu] at hfe
    simp only [Option.map_some'] at hfe
    injection hfe with hfe
    subst hfe
    exact ⟨_, he, rfl, rfl⟩

theorem mem_idsOf_final (sources : List RawSource) (role x : String) :
    x ∈ idsOf (sources.foldl sourcesStep { roleIds := [], urls := [] }) role ↔
      memberRoleIds sources role x := by
  rw [mem_idsOf_foldl]
  simp [idsOf, dictGet]

theorem populated_iff (sources : List RawSource) (role : String) :
    idsOf (sources.foldl sourcesStep { roleIds := [], urls := [] }) role ≠ [] ↔
      ∃ x, memberRoleIds sources role x := by
  constructor
  · intro h
    obtain ⟨x, hx⟩ := List.exists_mem_of_ne_nil _ h
    exact ⟨x, (mem_idsOf_final sources role x).mp hx⟩
  · rintro ⟨x, hx⟩
    exact List.ne_nil_of_mem ((mem_idsOf_final sources role x).mpr hx)

theorem upstreamsForRole_primary (roleIds : List (String × List String)) :
    upstreamsForRole roleIds "primary_knowledge_source" =
      dictGet roleIds "supporting_data_source" := by
  unfold upstreamsForRole
  rw [if_neg (by decide), if_pos rfl]

theorem upstreamsForRole_aggregator (roleIds : List (String × List String)) :
    upstreamsForRole roleIds "aggregator_knowledge_source" =
      dictGet roleIds "primary_knowledge_source" := by
  unfold upstreamsForRole
  rw [if_pos rfl]

theorem construct_sources_tree_shape (prov : String) (sources : List RawSource)
    (out : List FormattedSource) (hne : sources ≠ [])
    (h : _construct_sources_tree prov sources = some out) :
    ∃ groups,
      optionTraverse
        (fun kv => formatRoleEntries
          (sources.foldl sourcesStep { roleIds := [], urls := [] }).urls
          (sources.foldl sourcesStep { roleIds := [], urls := [] }).roleIds kv.1 kv.2)
        (sources.foldl sourcesStep { roleIds := [], urls := [] }).roleIds = some groups ∧
      out = groups.flatten ++
        [topLevelEntry prov
          (sources.foldl sourcesStep { roleIds := [], urls := [] }).roleIds] := by
  simp only [_construct_sources_tree] at h
  rw [if_neg (by simpa using hne)] at h
  rcases htrav : optionTraverse
      (fun kv => formatRoleEntries
        (sources.foldl sourcesStep { roleIds := [], urls := [] }).urls
        (sources.foldl sourcesStep { roleIds := [], urls := [] }).roleIds kv.1 kv.2)
      (sources.foldl sourcesStep { roleIds := [], urls := [] }).roleIds with _ | groups
  · rw [htrav] at h
    cases h
  · rw [htrav] at h
    injection h with h
    exact ⟨groups, htrav, h.symm⟩

/-- C2: in the constructed sources tree, the upstreams of every primary
knowledge source entry are exactly the ids grouped under
`supporting_data_source`, the upstreams of every (retained) aggregator
entry are exactly the ids grouped under `primary_knowledge_source`, and the
one appended system entry carries the system provenance with role
`aggregator_knowledge_source` and upstreams drawn from the highest
populated role in the order aggregator > primary > supporting; an empty
input yields exactly the system entry with null upstreams. -/
theorem construct_sources_tree_spec (prov : String) (sources : List RawSource)
    (out : List FormattedSource)
    (h : _construct_sources_tree prov sources = some out) :
    (sources = [] → out = [{ resource_id := prov
                             resource_role := "aggregator_knowledge_source"
                             source_record_urls := none
                             upstream_resource_ids := none }]) ∧
    ∃ formatted sys, out = formatted ++ [sys] ∧
      (∀ e ∈ formatted,
        (e.resource_role = "primary_knowledge_source" →
          ∀ x, x ∈ upstreamIds e ↔ memberRoleIds sources "supporting_data_source" x) ∧
        (e.resource_role = "aggregator_knowledge_source" →
          ∀ x, x ∈ upstreamIds e ↔ memberRoleIds sources "primary_knowledge_source" x)) ∧
      sys.resource_id = prov ∧
      sys.resource_role = "aggregator_knowledge_source" ∧
      sys.source_record_urls = none ∧
      ((∃ x, memberRoleIds sources "aggregator_knowledge_source" x) →
        ∀ x, x ∈ upstreamIds sys ↔
          memberRoleIds sources "aggregator_knowledge_source" x) ∧
      ((¬∃ x, memberRoleIds sources "aggregator_knowledge_source" x) →
        (∃ x, memberRoleIds sources "primary_knowledge_source" x) →
        ∀ x, x ∈ upstreamIds sys ↔
          memberRoleIds sources "primary_knowledge_source" x) ∧
      ((¬∃ x, memberRoleIds sources "aggregator_knowledge_source" x) →
        (¬∃ x, memberRoleIds sources "primary_knowledge_source" x) →
        ∀ x, x ∈ upstreamIds sys ↔
          memberRoleIds sources "supporting_data_source" x) := by
  by_cases hemp : sources = []
  · subst hemp
    simp only [_construct_sources_tree, List.isEmpty_nil, if_pos rfl] at h
    injection h with h
    subst h
    refine ⟨fun _ => rfl, [], _, rfl, by simp, rfl, rfl, rfl, ?_, ?_, ?_⟩ <;>
      { intros
        constructor
        · intro hx
          simp [upstreamIds] at hx
        · rintro ⟨s, hs, _⟩
          simp at hs }
  · obtain ⟨groups, htrav, hout⟩ := construct_sources_tree_shape prov sources out hemp h
    subst hout
    refine ⟨fun hc => absurd hc hemp, groups.flatten, _, rfl, ?_, rfl, rfl, rfl, ?_, ?_, ?_⟩
    · intro e he
      obtain ⟨g, hg, heg⟩ := List.mem_flatten.mp he
      obtain ⟨kv, hkv, hfe⟩ := optionTraverse_mem _ _ _ htrav g hg
      obtain ⟨hrole, hup, _⟩ := formatRoleEntries_mem _ _ _ _ _ hfe e heg
      constructor
      · intro hp
        rw [hp] at hrole
        intro x
        rw [upstreamIds, hup, ← hrole, upstreamsForRole_primary, getD_listIfTruthy]
        exact mem_idsOf_final sources "supporting_data_source" x
      · intro hp
        rw [hp] at hrole
        intro x
        rw [upstreamIds, hup, ← hrole, upstreamsForRole_aggregator, getD_listIfTruthy]
        exact mem_idsOf_final sources "primary_knowledge_source" x
    · intro hagg x
      rw [← populated_iff] at hagg
      unfold upstreamIds topLevelEntry
      simp only
      rw [getD_listIfTruthy, orTruthy_of_nonempty hagg]
      exact mem_idsOf_final sources "aggregator_knowledge_source" x
    · intro hagg hprim x
      rw [← populated_iff] at hagg hprim
      push_neg at hagg
      unfold upstreamIds topLevelEntry
      simp only
      rw [getD_listIfTruthy, orTruthy_of_empty hagg, orTruthy_of_nonempty hprim]
      exact mem_idsOf_final sources "primary_knowledge_source" x
    · intro hagg hprim x
      rw [← populated_iff] at hagg hprim
      push_neg at hagg hprim
      unfold upstreamIds topLevelEntry
      simp only
      rw [getD_listIfTruthy, orTruthy_of_empty hagg, orTruthy_of_empty hprim]
      exact mem_idsOf_final sources "supporting_data_source" x

/-- C2 witness: the spec's sources-tree composition scenario, with the
theorem's characterization instantiated at its computed output. -/
theorem construct_sources_tree_spec_witness :
    _construct_sources_tree "infores:monarchinitiative" c2Sources = some c2TreeOut ∧
    ((c2Sources = [] → c2TreeOut = [{ resource_id := "infores:monarchinitiative"
                                      resource_role := "aggregator_knowledge_source"
                                      source_record_urls := none
                                      upstream_resource_ids := none }]) ∧
     ∃ formatted sys, c2TreeOut = formatted ++ [sys] ∧
      (∀ e ∈ formatted,
        (e.resource_role = "primary_knowledge_source" →
          ∀ x, x ∈ upstreamIds e ↔ memberRoleIds c2Sources "supporting_data_source" x) ∧
        (e.resource_role = "aggregator_knowledge_source" →
          ∀ x, x ∈ upstreamIds e ↔ memberRoleIds c2Sources "primary_knowledge_source" x)) ∧
      sys.resource_id = "infores:monarchinitiative" ∧
      sys.resource_role = "aggregator_knowledge_source" ∧
      sys.source_record_urls = none ∧
      ((∃ x, memberRoleIds c2Sources "aggregator_knowledge_source" x) →
        ∀ x, x ∈ upstreamIds sys ↔
          memberRoleIds c2Sources "aggregator_knowledge_source" x) ∧
      ((¬∃ x, memberRoleIds c2Sources "aggregator_knowledge_source" x) →
        (∃ x, memberRoleIds c2Sources "primary_knowledge_source" x) →
        ∀ x, x ∈ upstreamIds sys ↔
          memberRoleIds c2Sources "primary_knowledge_source" x) ∧
      ((¬∃ x, memberRoleIds c2Sources "aggregator_knowledge_source" x) →
        (¬∃ x, memberRoleIds c2Sources "primary_knowledge_source" x) →
        ∀ x, x ∈ upstreamIds sys ↔
          memberRoleIds c2Sources "supporting_data_source" x)) :=
  ⟨rfl, construct_sources_tree_spec "infores:monarchinitiative" c2Sources c2TreeOut rfl⟩

/-- C8 counterexample: `lstrip("biolink:")` strips a character set, not the
literal prefix — the role `knowledge_source` does not begin with
`biolink:`, yet it is emitted as `wledge_source`. -/
theorem construct_sources_tree_lstrip_counterexample :
    "biolink:".data.isPrefixOf "knowledge_source".data = false ∧
    _construct_sources_tree "infores:monarchinitiative"
        [{ resource_id := some (.rstr "infores:x")
           resource_role := some "knowledge_source" }] =
      some [{ resource_id := "infores:x"
              resource_role := "wledge_source"
              source_record_urls := none
              upstream_resource_ids := none },
            { resource_id := "infores:monarchinitiative"
              resource_role := "aggregator_knowledge_source"
              source_record_urls := none
              upstream_resource_ids := none }] ∧
    ("wledge_source" : String) ≠ "knowledge_source" := by
  refine ⟨by decide, rfl, by decide⟩

/-- C8 (amended): every retained stub's role is emitted with Python
`str.lstrip("biolink:")` applied — all leading characters drawn from the
set `{b, i, o, l, n, k, :}` are removed (so a leading `biolink:` prefix is
removed, but other roles starting with those characters are truncated
too). -/
theorem construct_sources_tree_roles_lstripped (prov : String)
    (sources : List RawSource) (out : List FormattedSource)
    (h : _construct_sources_tree prov sources = some out) :
    (∀ e ∈ out, e.resource_role = "aggregator_knowledge_source" ∨
      ∃ s ∈ sources, ∃ rid role0, stubData s = some (rid, role0) ∧
        e.resource_role = pyLstrip biolinkChars role0 ∧ e.resource_id ∈ stubIds rid) ∧
    (∀ s ∈ sources, ∀ rid role0, stubData s = some (rid, role0) →
      ∀ x ∈ stubIds rid, ∃ e ∈ out, e.resource_id = x ∧
        e.resource_role = pyLstrip biolinkChars role0) := by
  by_cases hemp : sources = []
  · subst hemp
    simp only [_construct_sources_tree, List.isEmpty_nil, if_pos rfl] at h
    injection h with h
    subst h
    constructor
    · intro e he
      rcases List.mem_singleton.mp he with rfl
      exact Or.inl rfl
    · intro s hs
      simp at hs
  · obtain ⟨groups, htrav, hout⟩ := construct_sources_tree_shape prov sources out hemp h
    have hnd : (((sources.foldl sourcesStep { roleIds := [], urls := [] }).roleIds).map
        Prod.fst).Nodup :=
      keys_nodup_sources_foldl sources { roleIds := [], urls := [] } (by simp)
    subst hout
    constructor
    · intro e he
      rcases List.mem_append.mp he with he | he
      · obtain ⟨g, hg, heg⟩ := List.mem_flatten.mp he
        obtain ⟨kv, hkv, hfe⟩ := optionTraverse_mem _ _ _ htrav g hg
        obtain ⟨hrole, _, hid⟩ := formatRoleEntries_mem _ _ _ _ _ hfe e heg
        have hget : dictGet (sources.foldl sourcesStep
            { roleIds := [], urls := [] }).roleIds kv.1 = some kv.2 :=
          dictGet_of_mem_nodup (by rw [← Prod.mk.eta (p := kv)] at hkv; exact hkv) hnd
        have hin : e.resource_id ∈ idsOf
            (sources.foldl sourcesStep { roleIds := [], urls := [] }) kv.1 := by
          rw [idsOf, hget]
          exact hid
        obtain ⟨s, hs, rid, role0, hstub, hstrip, hmem⟩ :=
          (mem_idsOf_final sources kv.1 e.resource_id).mp hin
        exact Or.inr ⟨s, hs, rid, role0, hstub, by rw [hrole, ← hstrip], hmem⟩
      · rcases List.mem_singleton.mp he with rfl
        exact Or.inl rfl
    · intro s hs rid role0 hstub x hx
      have hmem : memberRoleIds sources (pyLstrip biolinkChars role0) x :=
        ⟨s, hs, rid, role0, hstub, rfl, hx⟩
      have hin := (mem_idsOf_final sources (pyLstrip biolinkChars role0) x).mpr hmem
      rw [idsOf] at hin
      cases hget : dictGet (sources.foldl sourcesStep
          { roleIds := [], urls := [] }).roleIds (pyLstrip biolinkChars role0) with
      | none => rw [hget] at hin; simp at hin
      | some ids =>
        rw [hget] at hin
        simp only [Option.getD_some] at hin
        have hkv := mem_of_dictGet hget
        obtain ⟨g, hg, hfe⟩ := optionTraverse_forall _ _ _ htrav _ hkv
        obtain ⟨e, he, hid, hrole⟩ := formatRoleEntries_forall _ _ _ _ _ hfe x hin
        exact ⟨e, List.mem_append.mpr (Or.inl (List.mem_flatten.mpr ⟨g, hg, he⟩)),
          hid, hrole⟩

/-- C8 witness: a stub whose role carries a literal `biolink:` prefix is
emitted with the prefix removed. -/
theorem construct_sources_tree_roles_lstripped_witness :
    _construct_sources_tree "infores:monarchinitiative"
        [{ resource_id := some (.rstr "infores:semsimian-kp")
           resource_role := some "biolink:primary_knowledge_source" }] =
      some [{ resource_id := "infores:semsimian-kp"
              resource_role := "primary_knowledge_source"
              source_record_urls := none
              upstream_resource_ids := none },
            { resource_id := "infores:monarchinitiative"
              resource_role := "aggregator_knowledge_source"
              source_record_urls := none
              upstream_resource_ids := some ["infores:semsimian-kp"] }] ∧
    (∀ s ∈ [({ resource_id := some (.rstr "infores:semsimian-kp")
               resource_role := some "biolink:primary_knowledge_source" } : RawSource)],
      ∀ rid role0, stubData s = some (rid, role0) →
      ∀ x ∈ stubIds rid,
        ∃ e ∈ [({ resource_id := "infores:semsimian-kp"
                  resource_role := "primary_knowledge_source"
                  source_record_urls := none
                  upstream_resource_ids := none } : FormattedSource),
               { resource_id := "infores:monarchinitiative"
                 resource_role := "aggregator_knowledge_source"
                 source_record_urls := none
                 upstream_resource_ids := some ["infores:semsimian-kp"] }],
          e.resource_id = x ∧ e.resource_role = pyLstrip biolinkChars role0) :=
  ⟨rfl,
    (construct_sources_tree_roles_lstripped "infores:monarchinitiative"
      [{ resource_id := some (.rstr "infores:semsimian-kp")
         resource_role := some "biolink:primary_knowledge_source" }]
      [{ resource_id := "infores:semsimian-kp"
         resource_role := "primary_knowledge_source"
         source_record_urls := none
         upstream_resource_ids := none },
       { resource_id := "infores:monarchinitiative"
         resource_role := "aggregator_knowledge_source"
         source_record_urls := none
         upstream_resource_ids := some ["infores:semsimian-kp"] }] rfl).2⟩

theorem except_bind_ok {ε α β : Type} (x : α) (f : α → Except ε β) :
    (Except.ok x >>= f : Except ε β) = f x := rfl

theorem except_bind_error {ε α β : Type} (e : ε) (f : α → Except ε β) :
    (Except.error e >>= f : Except ε β) = Except.error e := rfl

theorem mem_dictSet {α β : Type} [DecidableEq α] {d : List (α × β)} {k : α} {v : β}
    {kv : α × β} (h : kv ∈ dictSet d k v) : kv = (k, v) ∨ kv ∈ d := by
  induction d with
  | nil => simpa [dictSet] using h
  | cons p rest ih =>
    by_cases hp : p.1 = k
    · rw [dictSet, if_pos hp] at h
      rcases List.mem_cons.mp h with rfl | h
      · left
        rw [← hp]
      · exact Or.inr (List.mem_cons_of_mem _ h)
    · rw [dictSet, if_neg hp] at h
      rcases List.mem_cons.mp h with rfl | h
      · exact Or.inr (List.mem_cons_self _ _)
      · rcases ih h with h | h
        · exact Or.inl h
        · exact Or.inr (List.mem_cons_of_mem _ h)

theorem keys_dictSet_of_not_containsKey {α β : Type} [DecidableEq α]
    {d : List (α × β)} {k : α} (v : β) (h : containsKey d k = false) :
    (dictSet d k v).map Prod.fst = d.map Prod.fst ++ [k] := by
  induction d with
  | nil => simp [dictSet]
  | cons p rest ih =>
    by_cases hp : p.1 = k
    · rw [containsKey, dictGet, if_pos hp] at h
      simp at h
    · rw [containsKey, dictGet, if_neg hp] at h
      simp [dictSet, hp, ih h]

theorem nodup_keys_dictSet {α β : Type} [DecidableEq α]
    {d : List (α × β)} (k : α) (v : β) (h : (d.map Prod.fst).Nodup) :
    ((dictSet d k v).map Prod.fst).Nodup := by
  cases hck : containsKey d k with
  | true => rw [keys_dictSet_of_containsKey v hck]; exact h
  | false =>
    rw [keys_dictSet_of_not_containsKey v hck]
    rw [List.nodup_append]
    refine ⟨h, List.nodup_singleton _, ?_⟩
    intro a ha hb
    simp at hb
    rw [hb] at ha
    exact absurd ((containsKey_iff_mem_keys d k).mpr ha) (by simp [hck])

/-- Destructor for a successful `matchEmit`: the input term is a node-map
key and the result state is the expected record update. -/
theorem matchEmit_ok (ctx : BuildCtx) (candId : String) (asrc : List RawSource)
    (st : MatchState) (td : TermData) (st' : MatchState)
    (h : matchEmit ctx candId asrc st td = Except.ok st') :
    ∃ nd, dictGet st.nodeMap td.object_id = some nd ∧
      st' = { seen := if containsKey st.seen td.object_id
                      then dictSet st.seen td.object_id true else st.seen
              cache := dictSet st.cache td.subject_id
                { name := td.subject_name
                  category := td.category
                  query_term := td.object_id
                  score := td.score
                  primary_answer_term := candId
                  edges := [(edgeIdStr (st.counter + 1), matchToInputEdge ctx asrc td),
                            (edgeIdStr (st.counter + 2), matchedTermEdge ctx candId td)] }
              counter := st.counter + 2
              nodeMap := if nd.name.isNone
                         then dictSet st.nodeMap td.object_id
                           { nd with name := some td.object_name }
                         else st.nodeMap } := by
  unfold matchEmit at h
  cases hnm : dictGet st.nodeMap td.object_id with
  | none =>
    rw [hnm] at h
    simp only [except_bind_error] at h
    cases h
  | some nd =>
    rw [hnm] at h
    simp only [except_bind_ok] at h
    injection h with h
    exact ⟨nd, rfl, h.symm⟩

theorem mem_dictSet_of_ne {α β : Type} [DecidableEq α] {d : List (α × β)} {k : α}
    {v : β} {kv : α × β} (hmem : kv ∈ d) (hne : kv.1 ≠ k) : kv ∈ dictSet d k v := by
  induction d with
  | nil => simp at hmem
  | cons p rest ih =>
    by_cases hp : p.1 = k
    · rw [dictSet, if_pos hp]
      rcases List.mem_cons.mp hmem with rfl | hmem
      · exact absurd hp hne
      · exact List.mem_cons_of_mem _ hmem
    · rw [dictSet, if_neg hp]
      rcases List.mem_cons.mp hmem with rfl | hmem
      · exact List.mem_cons_self _ _
      · exact List.mem_cons_of_mem _ (ih hmem)

/-- Case analysis for a successful `matchStep`: either the match was a
strictly lower-scoring duplicate and the state is unchanged, or the cache
is (re)written with the fresh entry (after the override branch reset the
previously recorded input term's `seen` flag). -/
theorem matchStep_ok_elim (ctx : BuildCtx) (candId : String) (asrc : List RawSource)
    (st : MatchState) (td : TermData) (st' : MatchState)
    (h : matchStep ctx candId asrc st td = Except.ok st') :
    (∃ prev, dictGet st.cache td.subject_id = some prev ∧ td.score < prev.score ∧
       st' = st) ∨
    (∃ seen1 nd,
      ((∃ prev, dictGet st.cache td.subject_id = some prev ∧ ¬td.score < prev.score ∧
          seen1 = dictSet st.seen prev.query_term false) ∨
        (dictGet st.cache td.subject_id = none ∧ seen1 = st.seen)) ∧
      dictGet st.nodeMap td.object_id = some nd ∧
      st' = { seen := if containsKey seen1 td.object_id
                      then dictSet seen1 td.object_id true else seen1
              cache := dictSet st.cache td.subject_id
                (matchCacheEntry ctx candId asrc st.counter td)
              counter := st.counter + 2
              nodeMap := if nd.name.isNone
                         then dictSet st.nodeMap td.object_id
                           { nd with name := some td.object_name }
                         else st.nodeMap }) := by
  unfold matchStep at h
  cases hprev : dictGet st.cache td.subject_id with
  | some prev =>
    rw [hprev] at h
    dsimp only at h
    by_cases hlt : td.score < prev.score
    · rw [if_pos hlt] at h
      injection h with h
      exact Or.inl ⟨prev, rfl, hlt, h.symm⟩
    · rw [if_neg hlt] at h
      obtain ⟨nd, hnd, hrec⟩ := matchEmit_ok _ _ _ _ _ _ h
      exact Or.inr ⟨dictSet st.seen prev.query_term false, nd,
        Or.inl ⟨prev, rfl, hlt, rfl⟩, hnd, hrec⟩
  | none =>
    rw [hprev] at h
    dsimp only at h
    obtain ⟨nd, hnd, hrec⟩ := matchEmit_ok _ _ _ _ _ _ h
    exact Or.inr ⟨st.seen, nd, Or.inr ⟨rfl, rfl⟩, hnd, hrec⟩

theorem matchStep_nodeMap_keys (ctx : BuildCtx) (candId : String)
    (asrc : List RawSource) (st : MatchState) (td : TermData) (st' : MatchState)
    (h : matchStep ctx candId asrc st td = Except.ok st') :
    st'.nodeMap.map Prod.fst = st.nodeMap.map Prod.fst := by
  rcases matchStep_ok_elim ctx candId asrc st td st' h with
    ⟨prev, _, _, rfl⟩ | ⟨seen1, nd, _, hnd, rfl⟩
  · rfl
  · by_cases hn : nd.name.isNone
    · simp only [if_pos hn]
      exact keys_dictSet_of_containsKey _ (by simp [containsKey, hnd])
    · simp only [if_neg hn]

theorem matchStep_counter_le (ctx : BuildCtx) (candId : String)
    (asrc : List RawSource) (st : MatchState) (td : TermData) (st' : MatchState)
    (h : matchStep ctx candId asrc st td = Except.ok st') :
    st.counter ≤ st'.counter := by
  rcases matchStep_ok_elim ctx candId asrc st td st' h with
    ⟨prev, _, _, rfl⟩ | ⟨seen1, nd, _, _, rfl⟩
  · exact le_refl _
  · simp only
    omega

theorem matchStep_inv (ctx : BuildCtx) (candId : String) (asrc : List RawSource)
    (st : MatchState) (td : TermData) (st' : MatchState)
    (h : matchStep ctx candId asrc st td = Except.ok st')
    (hwf : td.object_id ∈ ctx.query_terms)
    (hinv : MatchInv ctx candId st) : MatchInv ctx candId st' := by
  obtain ⟨hnd, hshape, hseen, hcover, hbound⟩ := hinv
  rcases matchStep_ok_elim ctx candId asrc st td st' h with
    ⟨prev, _, _, rfl⟩ | ⟨seen1, nd, hseen1, hndget, rfl⟩
  · exact ⟨hnd, hshape, hseen, hcover, hbound⟩
  · have hseen1get : ∀ t, dictGet seen1 t = some true → dictGet st.seen t = some true ∧
        (∀ prev, dictGet st.cache td.subject_id = some prev ∧
          ¬td.score < prev.score ∧ seen1 = dictSet st.seen prev.query_term false →
          t ≠ prev.query_term) := by
      intro t ht
      rcases hseen1 with ⟨prev, hprev, hlt, rfl⟩ | ⟨hnone, rfl⟩
      · by_cases hpt : t = prev.query_term
        · subst hpt
          rw [dictGet_dictSet_self] at ht
          cases ht
        · rw [dictGet_dictSet_ne _ _ _ _ (fun hc => hpt hc.symm)] at ht
          refine ⟨ht, ?_⟩
          rintro prev' ⟨hprev', _, hs⟩
          rw [hprev] at hprev'
          injection hprev' with hprev'
          rw [← hprev']
          exact hpt
      · refine ⟨ht, ?_⟩
        rintro prev' ⟨hprev', _, _⟩
        rw [hnone] at hprev'
        cases hprev'
    refine ⟨nodup_keys_dictSet _ _ hnd, ?_, ?_, ?_, ?_⟩
    · intro kv hkv
      rcases mem_dictSet hkv with rfl | hkv
      · exact ⟨hwf, _, _, _, _, rfl, rfl, rfl, rfl, rfl, rfl⟩
      · exact hshape kv hkv
    · intro t ht
      simp only at ht
      have hwitness_old : dictGet seen1 t = some true →
          ∃ kv ∈ dictSet st.cache td.subject_id
            (matchCacheEntry ctx candId asrc st.counter td), kv.2.query_term = t := by
        intro ht1
        obtain ⟨hst, hne⟩ := hseen1get t ht1
        obtain ⟨⟨kv1, kv2⟩, hkv, hq⟩ := hseen t hst
        by_cases hks : kv1 = td.subject_id
        · exfalso
          have hkget := dictGet_of_mem_nodup hkv hnd
          rw [hks] at hkget
          rcases hseen1 with ⟨prev, hprev, hlt, hs⟩ | ⟨hnone, hs⟩
          · rw [hprev] at hkget
            injection hkget with hkget
            have hq2 : t = prev.query_term := by rw [← hq, hkget]
            exact hne prev ⟨hprev, hlt, hs⟩ hq2
          · rw [hnone] at hkget
            cases hkget
        · exact ⟨(kv1, kv2), mem_dictSet_of_ne hkv hks, hq⟩
      by_cases hck : containsKey seen1 td.object_id
      · rw [if_pos hck] at ht
        by_cases hto : t = td.object_id
        · subst hto
          exact ⟨(td.subject_id, matchCacheEntry ctx candId asrc st.counter td),
            mem_of_dictGet (dictGet_dictSet_self _ _ _), rfl⟩
        · rw [dictGet_dictSet_ne _ _ _ _ (fun hc => hto hc.symm)] at ht
          exact hwitness_old ht
      · rw [if_neg hck] at ht
        exact hwitness_old ht
    · intro t htq
      simp only
      have h1 : containsKey seen1 t = true := by
        rcases hseen1 with ⟨prev, _, _, rfl⟩ | ⟨_, rfl⟩
        · exact containsKey_mono_dictSet _ _ (hcover t htq)
        · exact hcover t htq
      by_cases hck : containsKey seen1 td.object_id
      · rw [if_pos hck]
        exact containsKey_mono_dictSet _ _ h1
      · rw [if_neg hck]
        exact h1
    · intro kv hkv p hp
      simp only at hkv ⊢
      rcases mem_dictSet hkv with rfl | hkv
      · simp only [matchCacheEntry] at hp
        rcases List.mem_cons.mp hp with rfl | hp
        · exact ⟨st.counter + 1, by omega, rfl⟩
        · rcases List.mem_cons.mp hp with rfl | hp
          · exact ⟨st.counter + 2, by omega, rfl⟩
          · simp at hp
      · obtain ⟨j, hj, hpj⟩ := hbound kv hkv p hp
        exact ⟨j, by omega, hpj⟩

theorem matchFold_ok_elim (ctx : BuildCtx) (candId : String) (asrc : List RawSource)
    (td : TermData) (tds : List TermData) (st : MatchState) (ms : MatchState)
    (h : (td :: tds).foldlM (matchStep ctx candId asrc) st = Except.ok ms) :
    ∃ st1, matchStep ctx candId asrc st td = Except.ok st1 ∧
      tds.foldlM (matchStep ctx candId asrc) st1 = Except.ok ms := by
  rw [List.foldlM_cons] at h
  cases hstep : matchStep ctx candId asrc st td with
  | error e => rw [hstep] at h; rw [except_bind_error] at h; cases h
  | ok st1 =>
    rw [hstep] at h
    rw [except_bind_ok] at h
    exact ⟨st1, rfl, h⟩

theorem matchFold_inv (ctx : BuildCtx) (candId : String) (asrc : List RawSource)
    (tds : List TermData) :
    ∀ (st ms : MatchState),
      tds.foldlM (matchStep ctx candId asrc) st = Except.ok ms →
      (∀ td ∈ tds, td.object_id ∈ ctx.query_terms) →
      MatchInv ctx candId st → MatchInv ctx candId ms := by
  induction tds with
  | nil =>
    intro st ms h _ hinv
    simp only [List.foldlM_nil] at h
    injection h with h
    exact h ▸ hinv
  | cons td tds ih =>
    intro st ms h hwf hinv
    obtain ⟨st1, hstep, hfold⟩ := matchFold_ok_elim ctx candId asrc td tds st ms h
    exact ih st1 ms hfold (fun d hd => hwf d (List.mem_cons_of_mem _ hd))
      (matchStep_inv ctx candId asrc st td st1 hstep
        (hwf td (List.mem_cons_self _ _)) hinv)

theorem matchFold_nodeMap_keys (ctx : BuildCtx) (candId : String)
    (asrc : List RawSource) (tds : List TermData) :
    ∀ (st ms : MatchState),
      tds.foldlM (matchStep ctx candId asrc) st = Except.ok ms →
      ms.nodeMap.map Prod.fst = st.nodeMap.map Prod.fst := by
  induction tds with
  | nil =>
    intro st ms h
    simp only [List.foldlM_nil] at h
    injection h with h
    rw [h]
  | cons td tds ih =>
    intro st ms h
    obtain ⟨st1, hstep, hfold⟩ := matchFold_ok_elim ctx candId asrc td tds st ms h
    rw [ih st1 ms hfold, matchStep_nodeMap_keys ctx candId asrc st td st1 hstep]

theorem matchFold_counter_le (ctx : BuildCtx) (candId : String)
    (asrc : List RawSource) (tds : List TermData) :
    ∀ (st ms : MatchState),
      tds.foldlM (matchStep ctx candId asrc) st = Except.ok ms →
      st.counter ≤ ms.counter := by
  induction tds with
  | nil =>
    intro st ms h
    simp only [List.foldlM_nil] at h
    injection h with h
    rw [h]
  | cons td tds ih =>
    intro st ms h
    obtain ⟨st1, hstep, hfold⟩ := matchFold_ok_elim ctx candId asrc td tds st ms h
    exact le_trans (matchStep_counter_le ctx candId asrc st td st1 hstep) (ih st1 ms hfold)

/-- The initial match-loop state satisfies the invariant. -/
theorem matchInv_init (ctx : BuildCtx) (candId : String) (counter : Nat)
    (nodeMap : List (String × KGNode)) :
    MatchInv ctx candId
      { seen := ctx.query_terms.foldl (fun d t => dictSet d t false) []
        cache := [], counter := counter, nodeMap := nodeMap } := by
  have hseen0 : ∀ (init : List (String × Bool)) (qts : List String) (t : String),
      dictGet (qts.foldl (fun d t => dictSet d t false) init) t = some true →
      dictGet init t = some true := by
    intro init qts
    induction qts generalizing init with
    | nil => intro t h; exact h
    | cons q qs ih =>
      intro t h
      have := ih (dictSet init q false) t (by simpa using h)
      by_cases hq : q = t
      · subst hq
        rw [dictGet_dictSet_self] at this
        cases this
      · rwa [dictGet_dictSet_ne _ _ _ _ hq] at this
  have hcover0 : ∀ (init : List (String × Bool)) (qts : List String) (t : String),
      t ∈ qts ∨ containsKey init t = true →
      containsKey (qts.foldl (fun d t => dictSet d t false) init) t = true := by
    intro init qts
    induction qts generalizing init with
    | nil =>
      intro t h
      rcases h with h | h
      · simp at h
      · exact h
    | cons q qs ih =>
      intro t h
      simp only [List.foldl_cons]
      rcases h with h | h
      · rcases List.mem_cons.mp h with rfl | h
        · exact ih _ t (Or.inr (by rw [containsKey_dictSet]; simp))
        · exact ih _ t (Or.inl h)
      · exact ih _ t (Or.inr (containsKey_mono_dictSet _ _ h))
  refine ⟨by simp, by simp, ?_, ?_, by simp⟩
  · intro t ht
    have := hseen0 [] ctx.query_terms t ht
    simp [dictGet] at this
  · intro t htq
    exact hcover0 [] ctx.query_terms t (Or.inl htq)

/-- C5 (amended): when two TermMatches share the same `subject_id`, the
strictly higher-scoring one is retained in the candidate's match cache;
when the scores are equal the *later-seen* match overwrites the cached one
(the code keeps the old entry only on `score < cached.score`).
Consequently cache keys stay unique and each cache entry carries exactly
one match-to-input edge whose subject is that key, so no two
match-to-input edges in the same support graph share a subject term. -/
theorem match_cache_dedup (ctx : BuildCtx) (candId : String) (asrc : List RawSource) :
    (∀ (st : MatchState) (td : TermData) (prev : CacheEntry),
      dictGet st.cache td.subject_id = some prev →
      (td.score < prev.score → matchStep ctx candId asrc st td = Except.ok st) ∧
      (¬td.score < prev.score → ∀ st',
        matchStep ctx candId asrc st td = Except.ok st' →
        dictGet st'.cache td.subject_id =
          some (matchCacheEntry ctx candId asrc st.counter td))) ∧
    (∀ (tds : List TermData) (counter : Nat) (nodeMap : List (String × KGNode))
        (ms : MatchState),
      (∀ td ∈ tds, td.object_id ∈ ctx.query_terms) →
      tds.foldlM (matchStep ctx candId asrc)
        { seen := ctx.query_terms.foldl (fun d t => dictSet d t false) []
          cache := [], counter := counter, nodeMap := nodeMap } = Except.ok ms →
      (ms.cache.map Prod.fst).Nodup ∧ ∀ kv ∈ ms.cache, CacheShape ctx candId kv) := by
  constructor
  · intro st td prev hprev
    constructor
    · intro hlt
      unfold matchStep
      rw [hprev]
      dsimp only
      rw [if_pos hlt]
    · intro hlt st' h
      rcases matchStep_ok_elim ctx candId asrc st td st' h with
        ⟨prev', hprev', hlt', _⟩ | ⟨seen1, nd, _, _, rfl⟩
      · rw [hprev] at hprev'
        injection hprev' with hprev'
        rw [← hprev'] at hlt'
        exact absurd hlt' hlt
      · exact dictGet_dictSet_self _ _ _
  · intro tds counter nodeMap ms hwf hfold
    have hinv := matchFold_inv ctx candId asrc tds _ ms hfold hwf
      (matchInv_init ctx candId counter nodeMap)
    exact ⟨hinv.1, hinv.2.1⟩

/-- C5 counterexample: two matches with the same `subject_id` and equal
scores — the claim says the first-seen match is retained, but the cache
ends up holding the second one. -/
theorem match_cache_dedup_counterexample :
    c5m1.subject_id = c5m2.subject_id ∧ c5m1.score = c5m2.score ∧
    (([c5m1, c5m2].foldlM (matchStep mcqCtx "MONDO:0008807" []) c5state).toOption.map
        (fun ms => (dictGet ms.cache "HP:0001699").map
          (fun e => (e.query_term, e.name)))) =
      some (some ("HP:0012378", "second")) ∧
    (("HP:0012378", "second") : String × String) ≠ ("HP:0002104", "first") ∧
    c5m1.object_id = "HP:0002104" ∧ c5m1.subject_name = "first" := by
  exact ⟨rfl, rfl, rfl, by decide, rfl, rfl⟩

/-- C5 witness: a strictly lower-scoring duplicate of a cached match
target is ignored (the cached state is returned unchanged). -/
theorem match_cache_dedup_witness :
    dictGet c5stCached.cache c5mLow.subject_id = some c5prev ∧
    c5mLow.score < c5prev.score ∧
    matchStep mcqCtx "MONDO:0008807" [] c5stCached c5mLow = Except.ok c5stCached :=
  ⟨rfl, by norm_num [c5mLow, c5prev],
    ((match_cache_dedup mcqCtx "MONDO:0008807" []).1 c5stCached c5mLow c5prev rfl).1
      (by norm_num [c5mLow, c5prev])⟩

theorem foldl_dictSet_get_ne (ps : List (String × KGEdge)) :
    ∀ (eds : List (String × KGEdge)) (key : String),
      (∀ p ∈ ps, p.1 ≠ key) →
      dictGet (ps.foldl (fun e p => dictSet e p.1 p.2) eds) key = dictGet eds key := by
  induction ps with
  | nil => intro eds key _; rfl
  | cons p rest ih =>
    intro eds key hne
    simp only [List.foldl_cons]
    rw [ih _ key (fun q hq => hne q (List.mem_cons_of_mem _ hq)),
      dictGet_dictSet_ne _ _ _ _ (hne p (List.mem_cons_self _ _))]

theorem cacheEmitStep_ok_elim (ctx : BuildCtx) (membership : List (String × String))
    (acc : List (String × KGNode) × List (String × KGEdge) × List String)
    (kv : String × CacheEntry)
    (out : List (String × KGNode) × List (String × KGEdge) × List String)
    (h : cacheEmitStep ctx membership acc kv = Except.ok out) :
    ∃ mid, dictGet membership kv.2.query_term = some mid ∧
      out = (if containsKey acc.1 kv.1 then acc.1
             else dictSet acc.1 kv.1
               { name := some kv.2.name
                 categories := ctx.getCategories kv.2.category },
             kv.2.edges.foldl (fun e p => dictSet e p.1 p.2) acc.2.1,
             acc.2.2 ++ kv.2.edges.map Prod.fst ++ [mid]) := by
  unfold cacheEmitStep at h
  dsimp only at h
  cases hmid : dictGet membership kv.2.query_term with
  | none => rw [hmid] at h; cases h
  | some mid =>
    rw [hmid] at h
    injection h with h
    exact ⟨mid, rfl, by rw [← h, List.append_assoc]⟩

theorem cacheFold_edges_get_preserved (ctx : BuildCtx)
    (membership : List (String × String)) (cache : List (String × CacheEntry)) :
    ∀ (acc folded : List (String × KGNode) × List (String × KGEdge) × List String)
      (key : String),
      cache.foldlM (cacheEmitStep ctx membership) acc = Except.ok folded →
      (∀ kv ∈ cache, ∀ p ∈ kv.2.edges, p.1 ≠ key) →
      dictGet folded.2.1 key = dictGet acc.2.1 key := by
  induction cache with
  | nil =>
    intro acc folded key h _
    simp only [List.foldlM_nil] at h
    injection h with h
    rw [h]
  | cons kv rest ih =>
    intro acc folded key h hne
    rw [List.foldlM_cons] at h
    cases hstep : cacheEmitStep ctx membership acc kv with
    | error e => rw [hstep] at h; rw [except_bind_error] at h; cases h
    | ok out =>
      rw [hstep] at h
      rw [except_bind_ok] at h
      obtain ⟨mid, _, hout⟩ := cacheEmitStep_ok_elim ctx membership acc kv out hstep
      rw [ih out folded key h (fun q hq p hp => hne q (List.mem_cons_of_mem _ hq) p hp),
        hout]
      exact foldl_dictSet_get_ne _ _ _ (hne kv (List.mem_cons_self _ _))

theorem candidateEmit_ok_elim (ctx : BuildCtx) (st : BuildState)
    (cand : String × ResultEntry) (ms : MatchState) (st' : BuildState)
    (h : candidateEmit ctx st cand ms = Except.ok st') :
    ∃ nm1 folded,
      candidateNodeMap ctx cand.1 cand.2 ms.nodeMap = Except.ok nm1 ∧
      ms.cache.foldlM (cacheEmitStep ctx st.membership)
        (nm1, dictSet st.edges (edgeIdStr (ms.counter + 1))
          (answerEdge ctx cand.1 (answerSources ctx cand.2) cand.2.score
            ("sg-" ++ edgeIdStr (ms.counter + 1))), []) = Except.ok folded ∧
      st' = { edges := folded.2.1
              aux := dictSet (dictSet st.aux ("sg-" ++ edgeIdStr (ms.counter + 1)) [])
                ("sg-" ++ edgeIdStr (ms.counter + 1)) folded.2.2
              results := st.results ++
                [{ node_bindings := dictSet (dictSet []
                     ctx.qnode_subject_key [ctx.input_query_set_id])
                     ctx.qnode_object_key [cand.1]
                   analyses := [{ resource_id := ctx.provenance
                                  edge_bindings :=
                                    [("e01", [edgeIdStr (ms.counter + 1)])] }] }]
              nodeMap := folded.1
              counter := ms.counter + 1
              membership := st.membership } := by
  unfold candidateEmit at h
  dsimp only at h
  cases hnm1 : candidateNodeMap ctx cand.1 cand.2 ms.nodeMap with
  | error e => rw [hnm1] at h; rw [except_bind_error] at h; cases h
  | ok nm1 =>
    rw [hnm1] at h
    rw [except_bind_ok] at h
    cases hfolded : ms.cache.foldlM (cacheEmitStep ctx st.membership)
        (nm1, dictSet st.edges (edgeIdStr (ms.counter + 1))
          (answerEdge ctx cand.1 (answerSources ctx cand.2) cand.2.score
            ("sg-" ++ edgeIdStr (ms.counter + 1))), []) with
    | error e => rw [hfolded] at h; rw [except_bind_error] at h; cases h
    | ok folded =>
      rw [hfolded] at h
      rw [except_bind_ok] at h
      injection h with h
      exact ⟨nm1, folded, rfl, hfolded, h.symm⟩

theorem processCandidate_ok_elim (ctx : BuildCtx) (st : BuildState)
    (cand : String × ResultEntry) (st' : BuildState)
    (h : processCandidate ctx st cand = Except.ok st') :
    ∃ ms, cand.2.«matches».foldlM (matchStep ctx cand.1 (answerSources ctx cand.2))
        { seen := ctx.query_terms.foldl (fun d t => dictSet d t false) []
          cache := [], counter := st.counter, nodeMap := st.nodeMap } = Except.ok ms ∧
      ((ctx.set_interpretation = "ALL" ∧ ¬(ms.seen.all (fun kv => kv.2) = true)) ∧
         st' = { st with counter := ms.counter, nodeMap := ms.nodeMap } ∨
       ¬(ctx.set_interpretation = "ALL" ∧ ¬(ms.seen.all (fun kv => kv.2) = true)) ∧
         candidateEmit ctx st cand ms = Except.ok st') := by
  unfold processCandidate at h
  dsimp only at h
  cases hfold : cand.2.«matches».foldlM (matchStep ctx cand.1 (answerSources ctx cand.2))
      { seen := ctx.query_terms.foldl (fun d t => dictSet d t false) []
        cache := [], counter := st.counter, nodeMap := st.nodeMap } with
  | error e => rw [hfold] at h; rw [except_bind_error] at h; cases h
  | ok ms =>
    rw [hfold] at h
    rw [except_bind_ok] at h
    by_cases hc : ctx.set_interpretation = "ALL" ∧ ¬(ms.seen.all (fun kv => kv.2) = true)
    · rw [if_pos hc] at h
      injection h with h
      exact ⟨ms, rfl, Or.inl ⟨hc, h.symm⟩⟩
    · rw [if_neg hc] at h
      exact ⟨ms, rfl, Or.inr ⟨hc, h⟩⟩

/-- C4: for every `result_map` candidate, if `set_interpretation = "ALL"`
and some input query term is not observed among the candidate's
deduplicated term matches, the candidate contributes no answer edge, no
support graph, no result binding and no new node; under `"MANY"` the
candidate is emitted (answer edge, support graph and result binding)
regardless of which subset of the input terms was matched. -/
theorem set_interpretation_filter (ctx : BuildCtx) (st : BuildState)
    (cand : String × ResultEntry) (st' : BuildState)
    (h : processCandidate ctx st cand = Except.ok st')
    (hwf : ∀ td ∈ cand.2.«matches», td.object_id ∈ ctx.query_terms) :
    ∃ ms, cand.2.«matches».foldlM (matchStep ctx cand.1 (answerSources ctx cand.2))
        { seen := ctx.query_terms.foldl (fun d t => dictSet d t false) []
          cache := [], counter := st.counter, nodeMap := st.nodeMap } = Except.ok ms ∧
      ((ctx.set_interpretation = "ALL" ∧
          (∃ t ∈ ctx.query_terms, ∀ kv ∈ ms.cache, kv.2.query_term ≠ t)) →
        st'.edges = st.edges ∧ st'.aux = st.aux ∧ st'.results = st.results ∧
          st'.nodeMap.map Prod.fst = st.nodeMap.map Prod.fst) ∧
      (ctx.set_interpretation = "MANY" →
        ∃ aeid, dictGet st'.edges aeid =
            some (answerEdge ctx cand.1 (answerSources ctx cand.2) cand.2.score
              ("sg-" ++ aeid)) ∧
          containsKey st'.aux ("sg-" ++ aeid) = true ∧
          st'.results = st.results ++
            [{ node_bindings := dictSet (dictSet []
                 ctx.qnode_subject_key [ctx.input_query_set_id])
                 ctx.qnode_object_key [cand.1]
               analyses := [{ resource_id := ctx.provenance
                              edge_bindings := [("e01", [aeid])] }] }]) := by
  obtain ⟨ms, hfold, hbranch⟩ := processCandidate_ok_elim ctx st cand st' h
  have hinv := matchFold_inv ctx cand.1 (answerSources ctx cand.2) cand.2.«matches» _ ms
    hfold hwf (matchInv_init ctx cand.1 st.counter st.nodeMap)
  refine ⟨ms, hfold, ?_, ?_⟩
  · rintro ⟨hALL, t, htq, hnotobs⟩
    have hseenfalse : dictGet ms.seen t = some false := by
      have hck := hinv.2.2.2.1 t htq
      rw [containsKey] at hck
      cases hd : dictGet ms.seen t with
      | none => rw [hd] at hck; cases hck
      | some b =>
        cases b with
        | true =>
          obtain ⟨kv, hkv, hq⟩ := hinv.2.2.1 t hd
          exact absurd hq (hnotobs kv hkv)
        | false => rfl
    have hallfalse : ms.seen.all (fun kv => kv.2) = false :=
      List.all_eq_false.mpr ⟨(t, false), mem_of_dictGet hseenfalse, by simp⟩
    rcases hbranch with ⟨_, rfl⟩ | ⟨hc, _⟩
    · exact ⟨rfl, rfl, rfl, matchFold_nodeMap_keys _ _ _ _ _ _ hfold⟩
    · exact absurd ⟨hALL, by rw [hallfalse]; simp⟩ hc
  · intro hMANY
    rcases hbranch with ⟨⟨hALL, _⟩, _⟩ | ⟨_, hemit⟩
    · exact absurd (hALL.symm.trans hMANY) (by decide)
    · obtain ⟨nm1, folded, hnm1, hfolded, rfl⟩ :=
        candidateEmit_ok_elim ctx st cand ms st' hemit
      refine ⟨edgeIdStr (ms.counter + 1), ?_, ?_, rfl⟩
      · have hne : ∀ kv ∈ ms.cache, ∀ p ∈ kv.2.edges,
            p.1 ≠ edgeIdStr (ms.counter + 1) := by
          intro kv hkv p hp hcontra
          obtain ⟨j, hj, hpj⟩ := hinv.2.2.2.2 kv hkv p hp
          rw [hpj] at hcontra
          have := edgeIdStr_inj hcontra
          omega
        simp only
        rw [cacheFold_edges_get_preserved ctx st.membership ms.cache _ folded _
          hfolded hne]
        exact dictGet_dictSet_self _ _ _
      · simp only [containsKey]
        rw [dictGet_dictSet_self]
        rfl

/-- Witness for C4: the `MANY` candidate `c4entry` (matching only one of
the two input terms) is emitted by `processCandidate` with an answer
edge, a support graph and a result binding. -/
theorem set_interpretation_filter_witness :
    (∀ td ∈ c4entry.«matches», td.object_id ∈ mcqCtx.query_terms) ∧
    ∃ st', processCandidate mcqCtx (phaseAB mcqCtx) ("MONDO:0008807", c4entry) =
        Except.ok st' ∧
      ∃ ms, c4entry.«matches».foldlM
          (matchStep mcqCtx "MONDO:0008807" (answerSources mcqCtx c4entry))
          { seen := mcqCtx.query_terms.foldl (fun d t => dictSet d t false) []
            cache := [], counter := (phaseAB mcqCtx).counter
            nodeMap := (phaseAB mcqCtx).nodeMap } = Except.ok ms ∧
        ((mcqCtx.set_interpretation = "ALL" ∧
            (∃ t ∈ mcqCtx.query_terms, ∀ kv ∈ ms.cache, kv.2.query_term ≠ t)) →
          st'.edges = (phaseAB mcqCtx).edges ∧ st'.aux = (phaseAB mcqCtx).aux ∧
            st'.results = (phaseAB mcqCtx).results ∧
            st'.nodeMap.map Prod.fst = (phaseAB mcqCtx).nodeMap.map Prod.fst) ∧
        (mcqCtx.set_interpretation = "MANY" →
          ∃ aeid, dictGet st'.edges aeid =
              some (answerEdge mcqCtx "MONDO:0008807"
                (answerSources mcqCtx c4entry) c4entry.score ("sg-" ++ aeid)) ∧
            containsKey st'.aux ("sg-" ++ aeid) = true ∧
            st'.results = (phaseAB mcqCtx).results ++
              [{ node_bindings := dictSet (dictSet []
                   mcqCtx.qnode_subject_key [mcqCtx.input_query_set_id])
                   mcqCtx.qnode_object_key ["MONDO:0008807"]
                 analyses := [{ resource_id := mcqCtx.provenance
                                edge_bindings := [("e01", [aeid])] }] }]) :=
  ⟨by decide, _, rfl,
    set_interpretation_filter mcqCtx (phaseAB mcqCtx) ("MONDO:0008807", c4entry)
      _ rfl (by decide)⟩

theorem containsKey_eq_of_keys_eq {α β γ : Type} [DecidableEq α]
    {d : List (α × β)} {d' : List (α × γ)}
    (h : d.map Prod.fst = d'.map Prod.fst) (k : α) :
    containsKey d k = containsKey d' k := by
  cases hc : containsKey d' k with
  | true =>
    have hk : k ∈ d.map Prod.fst := by
      rw [h]
      exact (containsKey_iff_mem_keys d' k).mp hc
    exact (containsKey_iff_mem_keys d k).mpr hk
  | false =>
    cases hd : containsKey d k with
    | false => rfl
    | true =>
      have hk : k ∈ d'.map Prod.fst := by
        rw [← h]
        exact (containsKey_iff_mem_keys d k).mp hd
      rw [← containsKey_iff_mem_keys d' k, hc] at hk
      cases hk

theorem mem_foldl_dictSet {α β : Type} [DecidableEq α] (ps : List (α × β)) :
    ∀ (d : List (α × β)) (kv : α × β),
      kv ∈ ps.foldl (fun e p => dictSet e p.1 p.2) d → kv ∈ d ∨ kv ∈ ps := by
  induction ps with
  | nil => intro d kv h; exact Or.inl h
  | cons p rest ih =>
    intro d kv h
    rw [List.foldl_cons] at h
    rcases ih _ kv h with h | h
    · rcases mem_dictSet h with rfl | h
      · right
        have hp : ((p.1, p.2) : α × β) = p := rfl
        rw [hp]
        exact List.mem_cons_self _ _
      · exact Or.inl h
    · exact Or.inr (List.mem_cons_of_mem _ h)

theorem containsKey_filter_notin {β : Type} (bad : List String)
    (l : List (String × β)) (k : String)
    (h : containsKey l k = true) (hk : k ∉ bad) :
    containsKey (l.filter (fun kv => kv.1 ∉ bad)) k = true := by
  induction l with
  | nil => simp [containsKey, dictGet] at h
  | cons p rest ih =>
    by_cases hp : p.1 = k
    · have hpb : p.1 ∉ bad := by rw [hp]; exact hk
      rw [List.filter_cons, if_pos (by simpa using hpb)]
      simp [containsKey, dictGet, hp]
    · simp only [containsKey, dictGet, if_neg hp] at h
      rw [← containsKey] at h
      rw [List.filter_cons]
      by_cases hpb : p.1 ∈ bad
      · rw [if_neg (by simpa using hpb)]
        exact ih h
      · rw [if_pos (by simpa using hpb)]
        simp only [containsKey, dictGet, if_neg hp]
        rw [← containsKey]
        exact ih h

theorem except_ok_of_bind_ok {ε α β : Type} {x : Except ε α} {f : α → Except ε β}
    {b : β} (h : (x >>= f) = Except.ok b) : ∃ a, x = Except.ok a ∧ f a = Except.ok b := by
  cases x with
  | error e => rw [except_bind_error] at h; cases h
  | ok a => exact ⟨a, rfl, h⟩

theorem memberFold_inv (ctx : BuildCtx) (l : List String) :
    ∀ st : BuildState,
      containsKey st.nodeMap ctx.input_query_set_id = true →
      EdgesRef st.nodeMap st.edges →
      containsKey (l.foldl (memberStep ctx) st).nodeMap ctx.input_query_set_id = true ∧
      EdgesRef (l.foldl (memberStep ctx) st).nodeMap (l.foldl (memberStep ctx) st).edges ∧
      (∀ k, containsKey st.nodeMap k = true →
        containsKey (l.foldl (memberStep ctx) st).nodeMap k = true) ∧
      (∀ t ∈ l, containsKey (l.foldl (memberStep ctx) st).nodeMap t = true) := by
  induction l with
  | nil =>
    intro st h1 h2
    exact ⟨h1, h2, fun k hk => hk, by simp⟩
  | cons t rest ih =>
    intro st h1 h2
    rw [List.foldl_cons]
    have hstep1 : containsKey (memberStep ctx st t).nodeMap ctx.input_query_set_id = true :=
      containsKey_mono_dictSet _ _ h1
    have hstepmono : ∀ k, containsKey st.nodeMap k = true →
        containsKey (memberStep ctx st t).nodeMap k = true :=
      fun k hk => containsKey_mono_dictSet _ _ hk
    have hstept : containsKey (memberStep ctx st t).nodeMap t = true := by
      show containsKey (dictSet st.nodeMap t (memberNode ctx)) t = true
      rw [containsKey_dictSet]
      simp
    have hstep2 : EdgesRef (memberStep ctx st t).nodeMap (memberStep ctx st t).edges := by
      intro kv hkv
      have hkv' : kv ∈ dictSet st.edges (edgeIdStr (st.counter + 1)) (memberEdge ctx t) := hkv
      rcases mem_dictSet hkv' with rfl | hm
      · exact ⟨hstept, hstep1⟩
      · obtain ⟨hs, ho⟩ := h2 kv hm
        exact ⟨hstepmono _ hs, hstepmono _ ho⟩
    obtain ⟨r1, r2, rmono, rall⟩ := ih (memberStep ctx st t) hstep1 hstep2
    refine ⟨r1, r2, fun k hk => rmono _ (hstepmono _ hk), ?_⟩
    intro u hu
    rcases List.mem_cons.mp hu with rfl | hu
    · exact rmono _ hstept
    · exact rall u hu

theorem phaseAB_inv (ctx : BuildCtx) : BuildInv ctx (phaseAB ctx) := by
  unfold phaseAB
  obtain ⟨h1, h2, _, hall⟩ := memberFold_inv ctx ctx.query_terms
    { edges := []
      aux := []
      results := []
      nodeMap := dictSet [] ctx.input_query_set_id (setNode ctx)
      counter := 0
      membership := [] }
    (by rw [containsKey_dictSet]; simp)
    (fun kv hkv => absurd hkv (List.not_mem_nil kv))
  exact ⟨hall, h1, h2⟩

theorem candidateNodeMap_ok (ctx : BuildCtx) (candId : String) (entry : ResultEntry)
    (nodeMap nm1 : List (String × KGNode))
    (h : candidateNodeMap ctx candId entry nodeMap = Except.ok nm1) :
    containsKey nm1 candId = true ∧
    ∀ k, containsKey nodeMap k = true → containsKey nm1 k = true := by
  unfold candidateNodeMap at h
  by_cases hck : containsKey nodeMap candId = true
  · rw [if_pos hck] at h
    injection h with h
    subst h
    exact ⟨hck, fun k hk => hk⟩
  · rw [if_neg hck] at h
    cases hpb : entry.provided_by with
    | none => rw [hpb] at h; cases h
    | some pb =>
      rw [hpb] at h
      injection h with h
      subst h
      refine ⟨?_, fun k hk => containsKey_mono_dictSet _ _ hk⟩
      rw [containsKey_dictSet]
      simp

theorem cacheEmitStep_ref (ctx : BuildCtx) (candId : String)
    (membership : List (String × String))
    (acc out : List (String × KGNode) × List (String × KGEdge) × List String)
    (kv : String × CacheEntry)
    (h : cacheEmitStep ctx membership acc kv = Except.ok out)
    (hshape : CacheShape ctx candId kv)
    (hcand : containsKey acc.1 candId = true)
    (hqt : ∀ t ∈ ctx.query_terms, containsKey acc.1 t = true)
    (he : EdgesRef acc.1 acc.2.1) :
    EdgesRef out.1 out.2.1 ∧
    ∀ k, containsKey acc.1 k = true → containsKey out.1 k = true := by
  obtain ⟨mid, hmid, hout⟩ := cacheEmitStep_ok_elim ctx membership acc kv out h
  obtain ⟨hqtm, e1id, e1, e2id, e2, hedges, hs1, _, ho1, hs2, ho2⟩ := hshape
  have hmono : ∀ k, containsKey acc.1 k = true → containsKey out.1 k = true := by
    intro k hk
    rw [hout]
    dsimp only
    split
    · exact hk
    · exact containsKey_mono_dictSet _ _ hk
  have htm : containsKey out.1 kv.1 = true := by
    rw [hout]
    dsimp only
    split
    · assumption
    · rw [containsKey_dictSet]
      simp
  refine ⟨?_, hmono⟩
  intro q hq
  have hq' : q ∈ kv.2.edges.foldl (fun e p => dictSet e p.1 p.2) acc.2.1 := by
    rw [hout] at hq
    exact hq
  rcases mem_foldl_dictSet _ _ _ hq' with hm | hm
  · obtain ⟨hs, ho⟩ := he q hm
    exact ⟨hmono _ hs, hmono _ ho⟩
  · rw [hedges] at hm
    rcases List.mem_cons.mp hm with rfl | hm
    · refine ⟨?_, ?_⟩
      · show containsKey out.1 e1.subject = true
        rw [hs1]
        exact htm
      · show containsKey out.1 e1.object = true
        rw [ho1]
        exact hmono _ (hqt _ hqtm)
    · rcases List.mem_cons.mp hm with rfl | hm
      · refine ⟨?_, ?_⟩
        · show containsKey out.1 e2.subject = true
          rw [hs2]
          exact hmono _ hcand
        · show containsKey out.1 e2.object = true
          rw [ho2]
          exact htm
      · cases hm

theorem cacheFold_ref (ctx : BuildCtx) (candId : String)
    (membership : List (String × String)) (cache : List (String × CacheEntry)) :
    ∀ acc folded,
      cache.foldlM (cacheEmitStep ctx membership) acc = Except.ok folded →
      (∀ kv ∈ cache, CacheShape ctx candId kv) →
      containsKey acc.1 candId = true →
      (∀ t ∈ ctx.query_terms, containsKey acc.1 t = true) →
      EdgesRef acc.1 acc.2.1 →
      EdgesRef folded.1 folded.2.1 ∧
      ∀ k, containsKey acc.1 k = true → containsKey folded.1 k = true := by
  induction cache with
  | nil =>
    intro acc folded h _ _ _ he
    simp only [List.foldlM_nil] at h
    injection h with h
    subst h
    exact ⟨he, fun k hk => hk⟩
  | cons kv rest ih =>
    intro acc folded h hshape hcand hqt he
    rw [List.foldlM_cons] at h
    cases hstep : cacheEmitStep ctx membership acc kv with
    | error e => rw [hstep, except_bind_error] at h; cases h
    | ok out =>
      rw [hstep, except_bind_ok] at h
      obtain ⟨he', hmono⟩ := cacheEmitStep_ref ctx candId membership acc out kv hstep
        (hshape kv (List.mem_cons_self _ _)) hcand hqt he
      obtain ⟨hf, hfmono⟩ := ih out folded h
        (fun q hq => hshape q (List.mem_cons_of_mem _ hq))
        (hmono _ hcand) (fun t ht => hmono _ (hqt t ht)) he'
      exact ⟨hf, fun k hk => hfmono _ (hmono _ hk)⟩

theorem processCandidate_inv (ctx : BuildCtx) (st : BuildState)
    (cand : String × ResultEntry) (st' : BuildState)
    (h : processCandidate ctx st cand = Except.ok st')
    (hwf : ∀ td ∈ cand.2.«matches», td.object_id ∈ ctx.query_terms)
    (hinv : BuildInv ctx st) : BuildInv ctx st' := by
  obtain ⟨hqt, hsid, he⟩ := hinv
  obtain ⟨ms, hfold, hbranch⟩ := processCandidate_ok_elim ctx st cand st' h
  have hkeys : ms.nodeMap.map Prod.fst = st.nodeMap.map Prod.fst :=
    matchFold_nodeMap_keys _ _ _ _ _ _ hfold
  have hckeq : ∀ k, containsKey ms.nodeMap k = containsKey st.nodeMap k :=
    fun k => containsKey_eq_of_keys_eq hkeys k
  have hminv := matchFold_inv ctx cand.1 (answerSources ctx cand.2) cand.2.«matches»
    _ ms hfold hwf (matchInv_init ctx cand.1 st.counter st.nodeMap)
  rcases hbranch with ⟨_, rfl⟩ | ⟨_, hemit⟩
  · refine ⟨fun t ht => ?_, ?_, fun kv hkv => ?_⟩
    · show containsKey ms.nodeMap t = true
      rw [hckeq]
      exact hqt t ht
    · show containsKey ms.nodeMap ctx.input_query_set_id = true
      rw [hckeq]
      exact hsid
    · obtain ⟨hs, ho⟩ := he kv hkv
      exact ⟨by rw [show ({ st with counter := ms.counter, nodeMap := ms.nodeMap } :
          BuildState).nodeMap = ms.nodeMap from rfl, hckeq]; exact hs,
        by rw [show ({ st with counter := ms.counter, nodeMap := ms.nodeMap } :
          BuildState).nodeMap = ms.nodeMap from rfl, hckeq]; exact ho⟩
  · obtain ⟨nm1, folded, hnm1, hfolded, rfl⟩ :=
      candidateEmit_ok_elim ctx st cand ms st' hemit
    obtain ⟨hnm1cand, hnm1mono⟩ := candidateNodeMap_ok ctx cand.1 cand.2 ms.nodeMap nm1 hnm1
    have hmono0 : ∀ k, containsKey st.nodeMap k = true → containsKey nm1 k = true :=
      fun k hk => hnm1mono k (by rw [hckeq]; exact hk)
    have hacc_e : EdgesRef nm1 (dictSet st.edges (edgeIdStr (ms.counter + 1))
        (answerEdge ctx cand.1 (answerSources ctx cand.2) cand.2.score
          ("sg-" ++ edgeIdStr (ms.counter + 1)))) := by
      intro kv hkv
      rcases mem_dictSet hkv with rfl | hkv
      · exact ⟨hnm1cand, hmono0 _ hsid⟩
      · obtain ⟨hs, ho⟩ := he kv hkv
        exact ⟨hmono0 _ hs, hmono0 _ ho⟩
    obtain ⟨hfe, hfmono⟩ := cacheFold_ref ctx cand.1 st.membership ms.cache
      _ folded hfolded hminv.2.1 hnm1cand (fun t ht => hmono0 _ (hqt t ht)) hacc_e
    exact ⟨fun t ht => hfmono _ (hmono0 _ (hqt t ht)), hfmono _ (hmono0 _ hsid), hfe⟩

theorem processFold_inv (ctx : BuildCtx) (rmap : List (String × ResultEntry)) :
    ∀ st stF, rmap.foldlM (processCandidate ctx) st = Except.ok stF →
      (∀ cand ∈ rmap, ∀ td ∈ cand.2.«matches», td.object_id ∈ ctx.query_terms) →
      BuildInv ctx st → BuildInv ctx stF := by
  induction rmap with
  | nil =>
    intro st stF h _ hinv
    simp only [List.foldlM_nil] at h
    injection h with h
    exact h ▸ hinv
  | cons cand rest ih =>
    intro st stF h hwf hinv
    rw [List.foldlM_cons] at h
    cases hstep : processCandidate ctx st cand with
    | error e => rw [hstep, except_bind_error] at h; cases h
    | ok st1 =>
      rw [hstep, except_bind_ok] at h
      exact ih st1 stF h (fun c hc => hwf c (List.mem_cons_of_mem _ hc))
        (processCandidate_inv ctx st cand st1 hstep (hwf cand (List.mem_cons_self _ _)) hinv)

theorem foldl_app_mono {α β : Type} (f : List α → β → List α)
    (hf : ∀ acc b, ∃ ext, f acc b = acc ++ ext) (l : List β) :
    ∀ acc x, x ∈ acc → x ∈ l.foldl f acc := by
  induction l with
  | nil => intro acc x hx; exact hx
  | cons b rest ih =>
    intro acc x hx
    rw [List.foldl_cons]
    obtain ⟨ext, hext⟩ := hf acc b
    exact ih _ x (by rw [hext]; exact List.mem_append_left _ hx)

theorem foldl_app_attains {α β : Type} (f : List α → β → List α)
    (hf : ∀ acc b, ∃ ext, f acc b = acc ++ ext)
    (g : β → α) (p : β → Prop) (hp : ∀ acc b, p b → g b ∈ f acc b) (l : List β) :
    ∀ acc, ∀ b ∈ l, p b → g b ∈ l.foldl f acc := by
  induction l with
  | nil => intro acc b hb; simp at hb
  | cons c rest ih =>
    intro acc b hb hpb
    rw [List.foldl_cons]
    rcases List.mem_cons.mp hb with rfl | hb
    · exact foldl_app_mono f hf rest _ _ (hp acc b hpb)
    · exact ih _ b hb hpb

theorem edgeFilterStep_app (rm : String → String → Bool) (ntf : List String)
    (cei : List (String × List AttributeConstraint)) (acc : List String)
    (ev : String × KGEdge) :
    ∃ ext, edgeFilterStep rm ntf cei acc ev = acc ++ ext := by
  unfold edgeFilterStep
  split
  · exact ⟨[ev.1], rfl⟩
  · split
    · split
      · exact ⟨[], by simp⟩
      · exact ⟨[ev.1], rfl⟩
    · exact ⟨[], by simp⟩

theorem edgeFilterStep_mem (rm : String → String → Bool) (ntf : List String)
    (cei : List (String × List AttributeConstraint)) (acc : List String)
    (ev : String × KGEdge)
    (hp : ev.2.subject ∈ ntf ∨ ev.2.object ∈ ntf) :
    ev.1 ∈ edgeFilterStep rm ntf cei acc ev := by
  unfold edgeFilterStep
  rw [if_pos hp]
  simp

/-- Edge filtering of `apply_attribute_constraints` preserves the
edges-reference-nodes invariant: a surviving edge is not adjacent to any
filtered node, and its endpoints survive the node filter. -/
theorem apply_constraints_edges_ref (rm : String → String → Bool) (msg msg' : Message)
    (h : apply_attribute_constraints rm msg = Except.ok msg')
    (he : ∀ kv ∈ msg.edges, containsKey msg.nodes kv.2.subject = true ∧
      containsKey msg.nodes kv.2.object = true) :
    ∀ kv ∈ msg'.edges, containsKey msg'.nodes kv.2.subject = true ∧
      containsKey msg'.nodes kv.2.object = true := by
  unfold apply_attribute_constraints at h
  dsimp only at h
  split at h
  · injection h with h
    subst h
    exact he
  · obtain ⟨cni, hcni, h⟩ := except_ok_of_bind_ok h
    obtain ⟨ntf, hntf, h⟩ := except_ok_of_bind_ok h
    injection h with h
    subst h
    intro kv hkv
    dsimp only at hkv ⊢
    rw [List.mem_filter] at hkv
    obtain ⟨hkv, hnotf⟩ := hkv
    have hnotf' : kv.1 ∉ msg.edges.foldl (edgeFilterStep rm ntf
        (msg.results.foldl
          (fun acc r =>
            (msg.qedges.filterMap
              (fun kv =>
                if kv.2.attribute_constraints.isEmpty then none
                else some (kv.1, kv.2.attribute_constraints))).foldl
              (fun acc2 qc =>
                r.analyses.foldl
                  (fun a an =>
                    ((dictGet an.edge_bindings qc.1).getD []).foldl
                      (fun a2 eid => dictSet a2 eid qc.2) a)
                  acc2)
              acc)
          [])) [] := of_decide_eq_true hnotf
    obtain ⟨hsub, hob⟩ := he kv hkv
    refine ⟨?_, ?_⟩
    · apply containsKey_filter_notin _ _ _ hsub
      intro hc
      exact hnotf' (foldl_app_attains _ (edgeFilterStep_app rm ntf _) Prod.fst
        (fun ev => ev.2.subject ∈ ntf ∨ ev.2.object ∈ ntf)
        (fun acc ev hpv => edgeFilterStep_mem rm ntf _ acc ev hpv)
        msg.edges [] kv hkv (Or.inl hc))
    · apply containsKey_filter_notin _ _ _ hob
      intro hc
      exact hnotf' (foldl_app_attains _ (edgeFilterStep_app rm ntf _) Prod.fst
        (fun ev => ev.2.subject ∈ ntf ∨ ev.2.object ∈ ntf)
        (fun acc ev hpv => edgeFilterStep_mem rm ntf _ acc ev hpv)
        msg.edges [] kv hkv (Or.inr hc))

/-- C3: every edge of a response produced by the pipeline references
knowledge-graph node keys at both ends: the knowledge graph assembled by
`build_trapi_message` satisfies the invariant (given the well-formedness
precondition that every term match's `object_id` is one of the input
query terms), and the filtering of `apply_attribute_constraints`
preserves it. -/
theorem edges_reference_nodes (getCats : String → List String) (provenance : String)
    (qnodes : List (String × QNode)) (result : MCQResult) (resp : TrapiResponse)
    (h : build_trapi_message getCats provenance qnodes result =
      Except.ok (.response resp))
    (hwf : ∀ cand ∈ result.result_map, ∀ td ∈ cand.2.«matches»,
      td.object_id ∈ result.query_terms) :
    (∀ kv ∈ resp.edges, containsKey resp.nodes kv.2.subject = true ∧
       containsKey resp.nodes kv.2.object = true) ∧
    (∀ (rm : String → String → Bool) (msg msg' : Message),
       apply_attribute_constraints rm msg = Except.ok msg' →
       (∀ kv ∈ msg.edges, containsKey msg.nodes kv.2.subject = true ∧
          containsKey msg.nodes kv.2.object = true) →
       ∀ kv ∈ msg'.edges, containsKey msg'.nodes kv.2.subject = true ∧
         containsKey msg'.nodes kv.2.object = true) := by
  refine ⟨?_, fun rm msg msg' hok hee => apply_constraints_edges_ref rm msg msg' hok hee⟩
  unfold build_trapi_message at h
  split at h
  · injection h with h
    exact BuildOutput.noConfusion h
  · split at h
    · exact Except.noConfusion h
    · injection h with h
      exact BuildOutput.noConfusion h
    · dsimp only at h
      obtain ⟨stF, hfold, h⟩ := except_ok_of_bind_ok h
      injection h with h
      injection h with h
      subst h
      intro kv hkv
      exact (processFold_inv _ result.result_map _ stF hfold hwf (phaseAB_inv _)).2.2 kv hkv

/-- Witness for C3: the two-term MANY query assembled from `c3result`
produces a response, and the theorem applies to it. -/
theorem edges_reference_nodes_witness :
    (∀ cand ∈ c3result.result_map, ∀ td ∈ cand.2.«matches»,
       td.object_id ∈ c3result.query_terms) ∧
    ∃ resp, build_trapi_message unitCats "infores:monarchinitiative" c1qnodes c3result =
        Except.ok (.response resp) ∧
      ((∀ kv ∈ resp.edges, containsKey resp.nodes kv.2.subject = true ∧
          containsKey resp.nodes kv.2.object = true) ∧
       (∀ (rm : String → String → Bool) (msg msg' : Message),
          apply_attribute_constraints rm msg = Except.ok msg' →
          (∀ kv ∈ msg.edges, containsKey msg.nodes kv.2.subject = true ∧
             containsKey msg.nodes kv.2.object = true) →
          ∀ kv ∈ msg'.edges, containsKey msg'.nodes kv.2.subject = true ∧
            containsKey msg'.nodes kv.2.object = true)) :=
  ⟨by decide, _, rfl,
    edges_reference_nodes unitCats "infores:monarchinitiative" c1qnodes c3result
      _ rfl (by decide)⟩

/-- C1 (code bug): the pipeline entry point `Question.answer` cannot
return the claimed message — its `run_query` call omits the required
`query_id` argument and raises `TypeError` (the snapshot's adapter module
cannot even be imported) — while the components, wired with their
required arguments as the repository's own tests invoke them, do produce
exactly the claimed knowledge graph for the two-term MANY query: set
node, both member nodes, candidate node `MONDO:0008807`, the
`similar_to` answer edge, two `member_of` edges, and the support graph
`sg-e0007` holding one match-to-input and one match-to-candidate edge per
matched term. -/
theorem question_answer_code_bug :
    question_answer c1qnodes 5 = Except.error
      (.typeError "run_query() missing 1 required positional argument: query_id") ∧
    phenotype_semsim_to_disease c1qnodes [c1record] = Except.ok c1adapter ∧
    c1adapter.toMCQResult = some c3result ∧
    ∃ resp, build_trapi_message unitCats "infores:monarchinitiative" c1qnodes c3result =
        Except.ok (.response resp) ∧
      containsKey resp.nodes "UUID:4403ddf2-f724-4b3b-a877-de08315b784f" = true ∧
      containsKey resp.nodes "HP:0002104" = true ∧
      containsKey resp.nodes "HP:0012378" = true ∧
      containsKey resp.nodes "MONDO:0008807" = true ∧
      (∃ e, dictGet resp.edges "e0007" = some e ∧ e.subject = "MONDO:0008807" ∧
        e.predicate = "biolink:similar_to" ∧
        e.object = "UUID:4403ddf2-f724-4b3b-a877-de08315b784f") ∧
      (∃ e, dictGet resp.edges "e0001" = some e ∧ e.subject = "HP:0002104" ∧
        e.predicate = "biolink:member_of" ∧
        e.object = "UUID:4403ddf2-f724-4b3b-a877-de08315b784f") ∧
      (∃ e, dictGet resp.edges "e0002" = some e ∧ e.subject = "HP:0012378" ∧
        e.predicate = "biolink:member_of" ∧
        e.object = "UUID:4403ddf2-f724-4b3b-a877-de08315b784f") ∧
      dictGet resp.aux "sg-e0007" =
        some ["e0003", "e0004", "e0001", "e0005", "e0006", "e0002"] ∧
      (∃ e, dictGet resp.edges "e0003" = some e ∧ e.subject = "HP:0010741" ∧
        e.predicate = "biolink:similar_to" ∧ e.object = "HP:0002104") ∧
      (∃ e, dictGet resp.edges "e0004" = some e ∧ e.subject = "MONDO:0008807" ∧
        e.predicate = "biolink:has_phenotype" ∧ e.object = "HP:0010741") ∧
      (∃ e, dictGet resp.edges "e0005" = some e ∧ e.subject = "HP:0002094" ∧
        e.predicate = "biolink:similar_to" ∧ e.object = "HP:0012378") ∧
      (∃ e, dictGet resp.edges "e0006" = some e ∧ e.subject = "MONDO:0008807" ∧
        e.predicate = "biolink:has_phenotype" ∧ e.object = "HP:0002094") :=
  ⟨rfl, rfl, rfl, _, rfl, rfl, rfl, rfl, rfl,
    ⟨_, rfl, rfl, rfl, rfl⟩, ⟨_, rfl, rfl, rfl, rfl⟩, ⟨_, rfl, rfl, rfl, rfl⟩, rfl,
    ⟨_, rfl, rfl, rfl, rfl⟩, ⟨_, rfl, rfl, rfl, rfl⟩, ⟨_, rfl, rfl, rfl, rfl⟩,
    ⟨_, rfl, rfl, rfl, rfl⟩⟩

/-- C10: with a well-formed MCQ subject node in the query graph, an empty
upstream similarity response makes `phenotype_semsim_to_disease` fail
with `IndexError` (the guard `full_result[0]` indexes the empty list)
instead of returning a result with an empty `result_map`. -/
theorem phenotype_semsim_empty_result_indexerror (qnodes : List (String × QNode))
    (params : String × String × List String × String)
    (h : findMCQparams qnodes = Except.ok (some params)) :
    phenotype_semsim_to_disease qnodes [] =
      Except.error (.indexError "list index out of range") := by
  obtain ⟨si, sid, mids, cat⟩ := params
  unfold phenotype_semsim_to_disease
  rw [h]
  rfl

/-- Witness for C10: the two-term MANY query graph with the empty
upstream response. -/
theorem phenotype_semsim_empty_result_indexerror_witness :
    findMCQparams c1qnodes = Except.ok (some ("MANY",
      "UUID:4403ddf2-f724-4b3b-a877-de08315b784f",
      ["HP:0002104", "HP:0012378"], "biolink:PhenotypicFeature")) ∧
    phenotype_semsim_to_disease c1qnodes [] =
      Except.error (.indexError "list index out of range") :=
  ⟨rfl, phenotype_semsim_empty_result_indexerror c1qnodes _ rfl⟩

/-- C6 (code bug): a message that passes through
`apply_attribute_constraints` with a satisfied node constraint keeps its
answer edge — which still declares the `biolink:support_graphs`
attribute referencing `sg-e0007` — but the rebuilt message carries no
`auxiliary_graphs` entry at all, so the referenced auxiliary graph id is
no longer a key of the message's auxiliary-graphs map. -/
theorem apply_constraints_drops_support_graphs :
    dictGet c6msg.aux "sg-e0007" = some ["e0003", "e0004", "e0001"] ∧
    ∃ msg', apply_attribute_constraints c6rm c6msg = Except.ok msg' ∧
      (∃ e, dictGet msg'.edges "e0007" = some e ∧
        e.attributes = [c6sgAttr] ∧
        c6sgAttr.attribute_type_id = "biolink:support_graphs" ∧
        c6sgAttr.value = .vlist [.vstr "sg-e0007"]) ∧
      msg'.aux = [] ∧
      containsKey msg'.aux "sg-e0007" = false :=
  ⟨rfl, _, rfl, ⟨_, rfl, rfl, rfl, rfl⟩, rfl, rfl⟩
